import Mathlib

/-!
# PkgLens — verification of the semver utility layer

Shallow embedding of the PkgLens dependency-analysis core
(`src/utils/semverUtils.ts`, `src/utils/diffUtils.ts`, the report
aggregator, and the registry client) together with a model of the small
fragment of the external npm `semver` library that those functions call
(`valid`, `validRange`, `maxSatisfying`, `eq`/`gt`/`lt`, `rcompare`,
`major`).

Conventions of the embedding:
* JavaScript strings are Lean `String`s; `null`/`undefined` arguments are
  `Option`; functions that can throw return `Except String`.
* JavaScript `Set`/`Map` objects are insertion-ordered association lists.
* `Array.prototype.sort(cmp)` (a stable sort, per the ECMAScript spec) is
  modelled by `List.insertionSort` over the reflexive relation
  `cmp a b ≤ 0`, which is stable and sorts exactly as the spec demands.
* `String.prototype.localeCompare` is modelled as code-point comparison,
  which agrees with it on the ASCII data handled here.
-/

namespace PkgLens

/-! ## Integer comparator framework

The JavaScript code works with three-way `Int`-valued comparators.  A
comparator is *coherent* when it behaves like the comparison function of a
total preorder; all the comparators appearing in the source are coherent,
and this is what makes the sorting and maximum-selection code meaningful.
-/

/-- A three-way comparator that behaves like a total preorder comparison:
antisymmetric in sign, equality substitutes on the left, and strict
comparison is transitive. -/
structure CmpLaws {α : Type} (f : α → α → Int) : Prop where
  neg : ∀ a b, f b a = -(f a b)
  subst : ∀ a b c, f a b = 0 → f a c = f b c
  ltTrans : ∀ a b c, f a b < 0 → f b c < 0 → f a c < 0

theorem CmpLaws.refl0 {α : Type} {f : α → α → Int} (h : CmpLaws f) (a : α) :
    f a a = 0 := by
  have := h.neg a a; omega

theorem CmpLaws.leTrans {α : Type} {f : α → α → Int} (h : CmpLaws f)
    (a b c : α) (hab : f a b ≤ 0) (hbc : f b c ≤ 0) : f a c ≤ 0 := by
  rcases lt_or_eq_of_le hab with hab' | hab'
  · rcases lt_or_eq_of_le hbc with hbc' | hbc'
    · exact le_of_lt (h.ltTrans a b c hab' hbc')
    · have hcb : f c b = 0 := by have := h.neg b c; omega
      have := h.subst c b a hcb
      have := h.neg a c; have := h.neg a b; omega
  · have := h.subst a b c hab'; omega

theorem CmpLaws.total {α : Type} {f : α → α → Int} (h : CmpLaws f)
    (a b : α) : f a b ≤ 0 ∨ f b a ≤ 0 := by
  have := h.neg a b; omega

/-- Lexicographic chaining of two comparators (`if first ties, use second`). -/
def cmpChain {α : Type} (f g : α → α → Int) (a b : α) : Int :=
  if f a b = 0 then g a b else f a b

/-- Compare through a projection. -/
def cmpOn {α β : Type} (f : β → β → Int) (p : α → β) (a b : α) : Int :=
  f (p a) (p b)

theorem CmpLaws.chain {α : Type} {f g : α → α → Int}
    (hf : CmpLaws f) (hg : CmpLaws g) : CmpLaws (cmpChain f g) := by
  constructor
  · intro a b
    unfold cmpChain
    by_cases h0 : f a b = 0
    · have h1 : f b a = 0 := by have := hf.neg a b; omega
      simp only [h0, h1, if_pos rfl]
      exact hg.neg a b
    · have h1 : ¬ f b a = 0 := by have := hf.neg a b; omega
      simp only [if_neg h0, if_neg h1]
      exact hf.neg a b
  · intro a b c hab
    unfold cmpChain at *
    by_cases h0 : f a b = 0
    · simp only [h0, if_pos rfl] at hab
      have hsf := hf.subst a b c h0
      by_cases h1 : f a c = 0
      · have h2 : f b c = 0 := by omega
        simp only [h1, h2, if_pos rfl]
        exact hg.subst a b c hab
      · have h2 : ¬ f b c = 0 := by omega
        simp only [if_neg h1, if_neg h2]
        exact hsf
    · simp only [if_neg h0] at hab
      exact absurd hab h0
  · intro a b c hab hbc
    unfold cmpChain at *
    by_cases h0 : f a b = 0
    · simp only [h0, if_pos rfl] at hab
      have hsf := hf.subst a b c h0
      by_cases h1 : f b c = 0
      · have h2 : f a c = 0 := by omega
        simp only [h2, if_pos rfl]
        simp only [h1, if_pos rfl] at hbc
        exact hg.ltTrans a b c hab hbc
      · simp only [if_neg h1] at hbc
        have h3 : ¬ f a c = 0 := by omega
        simp only [if_neg h3]
        omega
    · simp only [if_neg h0] at hab
      by_cases h1 : f b c = 0
      · have hcb : f c b = 0 := by have := hf.neg b c; omega
        have hs := hf.subst c b a hcb
        have h2 : f a c = f a b := by
          have := hf.neg a c; have := hf.neg a b; omega
        have h3 : ¬ f a c = 0 := by omega
        simp only [if_neg h3]
        omega
      · simp only [if_neg h1] at hbc
        have h2 := hf.ltTrans a b c hab hbc
        have h3 : ¬ f a c = 0 := by omega
        simp only [if_neg h3]
        exact h2

theorem CmpLaws.onProj {α β : Type} {f : β → β → Int} (hf : CmpLaws f)
    (p : α → β) : CmpLaws (cmpOn f p) := by
  constructor
  · intro a b; exact hf.neg (p a) (p b)
  · intro a b c h; exact hf.subst (p a) (p b) (p c) h
  · intro a b c h1 h2; exact hf.ltTrans (p a) (p b) (p c) h1 h2

/-- Three-way comparison on `Nat`. -/
def cmpNat (a b : Nat) : Int :=
  if a < b then -1 else if a = b then 0 else 1

theorem cmpNat_laws : CmpLaws cmpNat := by
  constructor
  · intro a b; unfold cmpNat
    split_ifs <;> omega
  · intro a b c h; unfold cmpNat at *
    have hab : a = b := by split_ifs at h <;> omega
    subst hab; rfl
  · intro a b c h1 h2; unfold cmpNat at *
    split_ifs at h1 h2 ⊢ <;> omega

/-- Three-way comparison on `Int` by subtraction (as JavaScript's
`rankA - rankB` comparator does). -/
def cmpIntSub (a b : Int) : Int := a - b

theorem cmpIntSub_laws : CmpLaws cmpIntSub := by
  constructor
  · intro a b; unfold cmpIntSub; omega
  · intro a b c h; unfold cmpIntSub at *; omega
  · intro a b c h1 h2; unfold cmpIntSub at *; omega

/-- Generic lexicographic comparison of lists: positions are compared in
order with `f`, and the list that runs out first is smaller. -/
def cmpLex {α : Type} (f : α → α → Int) : List α → List α → Int
  | [], [] => 0
  | [], _ :: _ => -1
  | _ :: _, [] => 1
  | x :: xs, y :: ys => if f x y = 0 then cmpLex f xs ys else f x y

theorem cmpLex_nil_nil {α : Type} (f : α → α → Int) :
    cmpLex f [] [] = 0 := rfl

theorem cmpLex_nil_cons {α : Type} (f : α → α → Int) (y : α) (ys : List α) :
    cmpLex f [] (y :: ys) = -1 := rfl

theorem cmpLex_cons_nil {α : Type} (f : α → α → Int) (x : α) (xs : List α) :
    cmpLex f (x :: xs) [] = 1 := rfl

theorem cmpLex_laws {α : Type} {f : α → α → Int} (hf : CmpLaws f) :
    CmpLaws (cmpLex f) := by
  constructor
  · intro a b
    induction a generalizing b with
    | nil =>
      cases b with
      | nil => rw [cmpLex_nil_nil]; decide
      | cons y ys =>
        rw [cmpLex_cons_nil, cmpLex_nil_cons]; decide
    | cons x xs ih =>
      cases b with
      | nil =>
        rw [cmpLex_cons_nil, cmpLex_nil_cons]
      | cons y ys =>
        simp only [cmpLex]
        by_cases h0 : f x y = 0
        · have h1 : f y x = 0 := by have := hf.neg x y; omega
          simp only [if_pos h0, if_pos h1]
          exact ih ys
        · have h1 : ¬ f y x = 0 := by have := hf.neg x y; omega
          simp only [if_neg h0, if_neg h1]
          exact hf.neg x y
  · intro a b c h
    induction a generalizing b c with
    | nil =>
      cases b with
      | nil => rfl
      | cons y ys =>
        rw [cmpLex_nil_cons] at h
        exact absurd h (by decide)
    | cons x xs ih =>
      cases b with
      | nil =>
        rw [cmpLex_cons_nil] at h
        exact absurd h (by decide)
      | cons y ys =>
        simp only [cmpLex] at h
        by_cases h0 : f x y = 0
        · simp only [if_pos h0] at h
          cases c with
          | nil => rfl
          | cons z zs =>
            simp only [cmpLex]
            have hs := hf.subst x y z h0
            by_cases h1 : f x z = 0
            · have h2 : f y z = 0 := by omega
              simp only [if_pos h1, if_pos h2]
              exact ih ys zs h
            · have h2 : ¬ f y z = 0 := by omega
              simp only [if_neg h1, if_neg h2]
              exact hs
        · simp only [if_neg h0] at h
          exact absurd h h0
  · intro a b c h1 h2
    induction a generalizing b c with
    | nil =>
      cases c with
      | nil =>
        cases b with
        | nil =>
          rw [cmpLex_nil_nil] at h2
          exact absurd h2 (by decide)
        | cons y ys =>
          rw [cmpLex_cons_nil] at h2
          exact absurd h2 (by decide)
      | cons z zs =>
        rw [cmpLex_nil_cons]; decide
    | cons x xs ih =>
      cases c with
      | nil =>
        cases b with
        | nil =>
          rw [cmpLex_nil_nil] at h2
          exact absurd h2 (by decide)
        | cons y ys =>
          rw [cmpLex_cons_nil] at h2
          exact absurd h2 (by decide)
      | cons z zs =>
        cases b with
        | nil =>
          rw [cmpLex_cons_nil] at h1
          exact absurd h1 (by decide)
        | cons y ys =>
          simp only [cmpLex] at h1 h2 ⊢
          by_cases hxy : f x y = 0
          · simp only [if_pos hxy] at h1
            have hs := hf.subst x y z hxy
            by_cases hyz : f y z = 0
            · simp only [if_pos hyz] at h2
              have hxz : f x z = 0 := by omega
              simp only [if_pos hxz]
              exact ih ys zs h1 h2
            · simp only [if_neg hyz] at h2
              have hxz : ¬ f x z = 0 := by omega
              simp only [if_neg hxz]
              omega
          · simp only [if_neg hxy] at h1
            by_cases hyz : f y z = 0
            · have hzy : f z y = 0 := by have := hf.neg y z; omega
              have hs := hf.subst z y x hzy
              have heq : f x z = f x y := by
                have := hf.neg x z; have := hf.neg x y; omega
              have hxz : ¬ f x z = 0 := by omega
              simp only [if_neg hxz]
              omega
            · simp only [if_neg hyz] at h2
              have h3 := hf.ltTrans x y z h1 h2
              have hxz : ¬ f x z = 0 := by omega
              simp only [if_neg hxz]
              exact h3

/-- If ties of `f` force equality, ties of `cmpLex f` force list
equality. -/
theorem cmpLex_eq_zero {α : Type} {f : α → α → Int}
    (hf0 : ∀ a b, f a b = 0 → a = b) :
    ∀ {a b : List α}, cmpLex f a b = 0 → a = b := by
  intro a
  induction a with
  | nil =>
    intro b h
    cases b with
    | nil => rfl
    | cons y ys =>
      rw [cmpLex_nil_cons] at h
      exact absurd h (by decide)
  | cons x xs ih =>
    intro b h
    cases b with
    | nil =>
      rw [cmpLex_cons_nil] at h
      exact absurd h (by decide)
    | cons y ys =>
      simp only [cmpLex] at h
      by_cases h0 : f x y = 0
      · simp only [if_pos h0] at h
        rw [hf0 x y h0, ih h]
      · simp only [if_neg h0] at h
        exact absurd h h0

/-- Three-way comparison of characters by code point. -/
def cmpChar : Char → Char → Int :=
  cmpOn cmpNat Char.toNat

theorem cmpChar_laws : CmpLaws cmpChar :=
  cmpNat_laws.onProj Char.toNat

theorem cmpNat_eq_zero {a b : Nat} (h : cmpNat a b = 0) : a = b := by
  unfold cmpNat at h
  split_ifs at h <;> omega

theorem cmpChar_eq_zero {a b : Char} (h : cmpChar a b = 0) : a = b :=
  Char.eq_of_val_eq (UInt32.toNat.inj (cmpNat_eq_zero h))

/-- Three-way code-point comparison on strings (the model of
`localeCompare`, and of the npm semver tie-break on alphanumeric
identifiers): lexicographic over UTF code points, shorter prefix first. -/
def cmpString : String → String → Int :=
  cmpOn (cmpLex cmpChar) String.data

theorem cmpString_eq_zero {a b : String} (h : cmpString a b = 0) : a = b := by
  have hd : a.data = b.data := cmpLex_eq_zero (fun x y hx => cmpChar_eq_zero hx) h
  cases a; cases b
  exact congrArg String.mk hd

theorem cmpString_laws : CmpLaws cmpString :=
  (cmpLex_laws cmpChar_laws).onProj String.data

/-! ## Model of the npm `semver` library (the fragment used by PkgLens)

`semverUtils.ts` delegates version parsing, comparison and range handling
to the external npm `semver` package, which the specification treats as an
external, already-correct capability.  The following definitions model
that library's documented behaviour on the fragment of inputs the
repository exercises: strict `major.minor.patch[-prerelease][+build]`
versions (with an optional leading `v`), and ranges built from `*`, `^`,
`~`, `>=`, `>`, `<=`, `<`, `=`, bare versions, and space-separated
conjunctions of those comparators.  Other syntax (`||`, hyphen ranges,
x-ranges such as `1.x`) is not modelled and parses as invalid here.
-/

/-- A parsed semantic version.  Build metadata is validated during parsing
but discarded, exactly as npm semver discards it for comparison and
formatting (`SemVer.version` omits the build). -/
structure SemVer where
  major : Nat
  minor : Nat
  patch : Nat
  prerelease : List String
  deriving DecidableEq

/-- Split a character list at every occurrence of the separator. -/
def splitOnChar (sep : Char) : List Char → List (List Char)
  | [] => [[]]
  | c :: cs =>
    let rest := splitOnChar sep cs
    if c = sep then [] :: rest
    else
      match rest with
      | r :: rs => (c :: r) :: rs
      | [] => [[c]]

/-- The part before the first occurrence of the separator, and `some` the
part after it when the separator occurs. -/
def breakFirst (sep : Char) : List Char → List Char × Option (List Char)
  | [] => ([], none)
  | c :: cs =>
    if c = sep then ([], some cs)
    else
      let p := breakFirst sep cs
      (c :: p.1, p.2)

/-- Kernel-friendly prefix test (`String.prototype.startsWith`). -/
def charsStartWith : List Char → List Char → Bool
  | _, [] => true
  | [], _ :: _ => false
  | c :: cs, p :: ps => c = p && charsStartWith cs ps

/-- `s.startsWith p` on packed strings. -/
def strStartsWith (s p : String) : Bool :=
  charsStartWith s.data p.data

/-- Drop the first `n` characters. -/
def strDrop (s : String) (n : Nat) : String :=
  String.mk (s.data.drop n)

/-- `String.prototype.trim`: strip leading and trailing whitespace. -/
def jsTrim (s : String) : String :=
  String.mk (((s.data.dropWhile Char.isWhitespace).reverse.dropWhile
    Char.isWhitespace).reverse)

/-- Characters allowed in prerelease/build identifiers: ASCII
alphanumerics and hyphen. -/
def isIdentChar (c : Char) : Bool :=
  c.isDigit || c.isAlpha || c = '-'

/-- Numeric value of a digit list. -/
def digitsToNat (cs : List Char) : Nat :=
  cs.foldl (fun a c => a * 10 + (c.toNat - 48)) 0

/-- Parse a numeric version component: nonempty, all digits, no leading
zero (semver's `NUMERICIDENTIFIER`). -/
def parseNumericComponent (cs : List Char) : Option Nat :=
  if cs ≠ [] ∧ cs.all Char.isDigit ∧ (cs.length = 1 ∨ cs.head? ≠ some '0') then
    some (digitsToNat cs)
  else none

/-- A valid prerelease identifier: nonempty, identifier characters only,
and, when fully numeric, no leading zero. -/
def validPrereleaseId (cs : List Char) : Bool :=
  !cs.isEmpty && cs.all isIdentChar &&
    (!cs.all Char.isDigit || cs.length = 1 || cs.head? ≠ some '0')

/-- A valid build identifier: nonempty, identifier characters only. -/
def validBuildId (cs : List Char) : Bool :=
  !cs.isEmpty && cs.all isIdentChar

/-- Model of npm `semver` strict version parsing (`semver.parse` /
`new SemVer(s)` / the regular expression behind `semver.valid`). -/
def parseSemVer (s : String) : Option SemVer :=
  let cs := if s.data.head? = some 'v' then s.data.tail else s.data
  let mainBuild := breakFirst '+' cs
  let okBuild :=
    match mainBuild.2 with
    | none => true
    | some b => (splitOnChar '+' b).isEmpty = false ∧ b ≠ [] ∧
        ((splitOnChar '.' b).all validBuildId)
  if okBuild then
    let corePre := breakFirst '-' mainBuild.1
    let okPre :=
      match corePre.2 with
      | none => true
      | some p => (splitOnChar '.' p).all validPrereleaseId
    if okPre then
      match splitOnChar '.' corePre.1 with
      | [ma, mi, pa] =>
        match parseNumericComponent ma, parseNumericComponent mi,
              parseNumericComponent pa with
        | some M, some m, some p =>
          let pre :=
            match corePre.2 with
            | none => []
            | some pcs => (splitOnChar '.' pcs).map (fun ids => String.mk ids)
          some ⟨M, m, p, pre⟩
        | _, _, _ => none
      | _ => none
    else none
  else none

/-- `semver.valid`: is the string a well-formed version? -/
def semverValid (s : String) : Bool :=
  (parseSemVer s).isSome

/-- An identifier is numeric when it consists solely of digits. -/
def isNumericId (s : String) : Bool :=
  !s.data.isEmpty && s.data.all Char.isDigit

/-- npm semver comparison of two prerelease identifiers: numeric
identifiers compare numerically and sort below alphanumeric ones, which
compare lexically. -/
def cmpIds (a b : String) : Int :=
  if isNumericId a then
    if isNumericId b then cmpNat (digitsToNat a.data) (digitsToNat b.data)
    else -1
  else
    if isNumericId b then 1
    else cmpString a b

/-- Positional comparison of prerelease identifier lists; a list that runs
out first is smaller (`1.2.3-alpha < 1.2.3-alpha.1`). -/
def cmpIdList : List String → List String → Int :=
  cmpLex cmpIds

/-- npm semver prerelease comparison: a version with no prerelease sorts
above every prerelease of the same release triple. -/
def cmpPrerelease (a b : List String) : Int :=
  match a, b with
  | [], [] => 0
  | [], _ :: _ => 1
  | _ :: _, [] => -1
  | _, _ => cmpIdList a b

/-- npm `semver.compare`: release triple first, then prerelease. -/
def compareSemVer : SemVer → SemVer → Int :=
  cmpChain (cmpOn cmpNat SemVer.major)
    (cmpChain (cmpOn cmpNat SemVer.minor)
      (cmpChain (cmpOn cmpNat SemVer.patch)
        (cmpOn cmpPrerelease SemVer.prerelease)))

theorem cmpIds_laws : CmpLaws cmpIds := by
  constructor
  · intro a b
    unfold cmpIds
    by_cases ha : isNumericId a
    · by_cases hb : isNumericId b
      · simp only [if_pos ha, if_pos hb]
        exact cmpNat_laws.neg _ _
      · simp only [if_pos ha, if_neg hb]
        norm_num
    · by_cases hb : isNumericId b
      · simp only [if_neg ha, if_pos hb]
      · simp only [if_neg ha, if_neg hb]
        exact cmpString_laws.neg a b
  · intro a b c h
    unfold cmpIds at h ⊢
    by_cases ha : isNumericId a
    · by_cases hb : isNumericId b
      · simp only [if_pos ha, if_pos hb] at h
        by_cases hc : isNumericId c
        · simp only [if_pos ha, if_pos hb, if_pos hc]
          exact cmpNat_laws.subst _ _ _ h
        · simp only [if_pos ha, if_pos hb, if_neg hc]
      · simp only [if_pos ha, if_neg hb] at h
        exact absurd h (by decide)
    · by_cases hb : isNumericId b
      · simp only [if_neg ha, if_pos hb] at h
        exact absurd h (by decide)
      · simp only [if_neg ha, if_neg hb] at h
        have hab := cmpString_eq_zero h
        subst hab
        rfl
  · intro a b c h1 h2
    unfold cmpIds at h1 h2 ⊢
    split_ifs at h1 h2 ⊢ <;>
      first
        | exact cmpNat_laws.ltTrans _ _ _ h1 h2
        | exact cmpString_laws.ltTrans _ _ _ h1 h2
        | omega

theorem cmpIdList_nil_cons (y : String) (ys : List String) :
    cmpIdList [] (y :: ys) = -1 := rfl

theorem cmpIdList_cons_nil (x : String) (xs : List String) :
    cmpIdList (x :: xs) [] = 1 := rfl

theorem cmpIdList_laws : CmpLaws cmpIdList :=
  cmpLex_laws cmpIds_laws

theorem cmpPrerelease_cons_cons (x : String) (xs : List String) (y : String)
    (ys : List String) :
    cmpPrerelease (x :: xs) (y :: ys) = cmpIdList (x :: xs) (y :: ys) := rfl

theorem cmpPrerelease_nil_cons (y : String) (ys : List String) :
    cmpPrerelease [] (y :: ys) = 1 := rfl

theorem cmpPrerelease_cons_nil (x : String) (xs : List String) :
    cmpPrerelease (x :: xs) [] = -1 := rfl

theorem cmpPrerelease_laws : CmpLaws cmpPrerelease := by
  constructor
  · intro a b
    cases a with
    | nil =>
      cases b with
      | nil => decide
      | cons y ys =>
        rw [cmpPrerelease_cons_nil, cmpPrerelease_nil_cons]
    | cons x xs =>
      cases b with
      | nil =>
        rw [cmpPrerelease_cons_nil, cmpPrerelease_nil_cons]; decide
      | cons y ys =>
        rw [cmpPrerelease_cons_cons, cmpPrerelease_cons_cons]
        exact cmpIdList_laws.neg _ _
  · intro a b c h
    cases a with
    | nil =>
      cases b with
      | nil => rfl
      | cons y ys =>
        rw [cmpPrerelease_nil_cons] at h
        exact absurd h (by decide)
    | cons x xs =>
      cases b with
      | nil =>
        rw [cmpPrerelease_cons_nil] at h
        exact absurd h (by decide)
      | cons y ys =>
        rw [cmpPrerelease_cons_cons] at h
        cases c with
        | nil => rfl
        | cons z zs =>
          rw [cmpPrerelease_cons_cons, cmpPrerelease_cons_cons]
          exact cmpIdList_laws.subst _ _ _ h
  · intro a b c h1 h2
    cases a with
    | nil =>
      cases b with
      | nil => exact absurd h1 (by decide)
      | cons y ys =>
        rw [cmpPrerelease_nil_cons] at h1
        exact absurd h1 (by decide)
    | cons x xs =>
      cases b with
      | nil =>
        cases c with
        | nil => exact absurd h2 (by decide)
        | cons z zs =>
          rw [cmpPrerelease_nil_cons] at h2
          exact absurd h2 (by decide)
      | cons y ys =>
        cases c with
        | nil =>
          rw [cmpPrerelease_cons_nil]; decide
        | cons z zs =>
          rw [cmpPrerelease_cons_cons] at h1 h2 ⊢
          exact cmpIdList_laws.ltTrans _ _ _ h1 h2

theorem compareSemVer_laws : CmpLaws compareSemVer :=
  (cmpNat_laws.onProj SemVer.major).chain
    ((cmpNat_laws.onProj SemVer.minor).chain
      ((cmpNat_laws.onProj SemVer.patch).chain
        (cmpPrerelease_laws.onProj SemVer.prerelease)))

/-- Range comparator operators (`=` is rendered as the empty operator by
npm semver's formatter). -/
inductive CompOp where
  | eq | lt | le | gt | ge
  deriving DecidableEq

/-- One primitive comparator of a range. -/
structure Comparator where
  op : CompOp
  ver : SemVer
  deriving DecidableEq

/-- Does version `v` pass one comparator? -/
def cmpTest (c : Comparator) (v : SemVer) : Bool :=
  match c.op with
  | CompOp.eq => compareSemVer v c.ver = 0
  | CompOp.lt => compareSemVer v c.ver < 0
  | CompOp.le => compareSemVer v c.ver ≤ 0
  | CompOp.gt => compareSemVer v c.ver > 0
  | CompOp.ge => compareSemVer v c.ver ≥ 0

/-- Same `major.minor.patch` release triple. -/
def sameTriple (a b : SemVer) : Bool :=
  a.major == b.major && a.minor == b.minor && a.patch == b.patch

/-- npm semver's default range test (`includePrerelease` unset): every
comparator must pass, and a prerelease version additionally needs some
comparator that itself carries a prerelease on the same release triple. -/
def satisfiesComps (v : SemVer) (comps : List Comparator) : Bool :=
  comps.all (fun c => cmpTest c v) &&
    (v.prerelease.isEmpty ||
      comps.any (fun c => !c.ver.prerelease.isEmpty && sameTriple c.ver v))

/-- Caret desugaring: `^M.m.p` allows changes that do not modify the
left-most nonzero component (npm semver `replaceCarets`). -/
def caretExpand (v : SemVer) : List Comparator :=
  let upper : SemVer :=
    if v.major > 0 then ⟨v.major + 1, 0, 0, ["0"]⟩
    else if v.minor > 0 then ⟨0, v.minor + 1, 0, ["0"]⟩
    else ⟨0, 0, v.patch + 1, ["0"]⟩
  [⟨CompOp.ge, v⟩, ⟨CompOp.lt, upper⟩]

/-- Tilde desugaring: `~M.m.p` allows patch-level changes
(npm semver `replaceTildes`). -/
def tildeExpand (v : SemVer) : List Comparator :=
  [⟨CompOp.ge, v⟩, ⟨CompOp.lt, ⟨v.major, v.minor + 1, 0, ["0"]⟩⟩]

/-- Parse one token of a range into its comparator list. -/
def parseSimple (t : String) : Option (List Comparator) :=
  if strStartsWith t ">=" then
    (parseSemVer (strDrop t 2)).map (fun v => [⟨CompOp.ge, v⟩])
  else if strStartsWith t "<=" then
    (parseSemVer (strDrop t 2)).map (fun v => [⟨CompOp.le, v⟩])
  else if strStartsWith t ">" then
    (parseSemVer (strDrop t 1)).map (fun v => [⟨CompOp.gt, v⟩])
  else if strStartsWith t "<" then
    (parseSemVer (strDrop t 1)).map (fun v => [⟨CompOp.lt, v⟩])
  else if strStartsWith t "^" then
    (parseSemVer (strDrop t 1)).map caretExpand
  else if strStartsWith t "~" then
    (parseSemVer (strDrop t 1)).map tildeExpand
  else if strStartsWith t "=" then
    (parseSemVer (strDrop t 1)).map (fun v => [⟨CompOp.eq, v⟩])
  else
    (parseSemVer t).map (fun v => [⟨CompOp.eq, v⟩])

/-- Parse a range string (`new Range(s)` on the modelled fragment):
`none` models the constructor throwing on invalid syntax. -/
def rangeParse (s : String) : Option (List Comparator) :=
  if s = "" ∨ s = "*" ∨ s = "x" ∨ s = "X" then some []
  else
    (((splitOnChar ' ' s.data).map String.mk).filter (fun t => t ≠ "")).mapM
      parseSimple |>.map List.flatten

/-- Format a version the way npm semver's `SemVer.version` does
(build metadata omitted). -/
def renderSemVer (v : SemVer) : String :=
  toString v.major ++ "." ++ toString v.minor ++ "." ++ toString v.patch ++
    (if v.prerelease.isEmpty then ""
     else "-" ++ String.intercalate "." v.prerelease)

/-- Comparator operators as npm semver prints them (`=` prints empty). -/
def renderOp : CompOp → String
  | CompOp.eq => ""
  | CompOp.lt => "<"
  | CompOp.le => "<="
  | CompOp.gt => ">"
  | CompOp.ge => ">="

/-- Format a comparator list the way `Range.format` joins it. -/
def renderRange (comps : List Comparator) : String :=
  String.intercalate " " (comps.map (fun c => renderOp c.op ++ renderSemVer c.ver))

/-- Model of npm `semver.validRange`: parse, then return the *expanded*
formatted range (so `^1.2.3` comes back as `>=1.2.3 <2.0.0-0`), `*` for a
range that formats to the empty string, and `none` (JS `null`) for invalid
input.  The real function never throws: it catches the range constructor's
exception internally. -/
def validRange (s : String) : Option String :=
  (rangeParse s).map (fun comps =>
    let r := renderRange comps
    if r = "" then "*" else r)

/-- One step of the `maxSatisfying` scan: skip unparseable or
non-satisfying versions, keep the strictly greater of the candidate and
the best so far (ties keep the earlier). -/
def maxSatStep (comps : List Comparator) (best : Option (String × SemVer))
    (v : String) : Option (String × SemVer) :=
  match parseSemVer v with
  | none => best
  | some sv =>
    if satisfiesComps sv comps then
      match best with
      | none => some (v, sv)
      | some b => if compareSemVer b.2 sv < 0 then some (v, sv) else best
    else best

/-- Model of npm `semver.maxSatisfying(versions, range, options)`: `none`
for an unparseable range; otherwise scan the list, keeping the first
greatest parseable version that satisfies the range (invalid entries never
satisfy). -/
def maxSatisfying (versions : List String) (range : String) : Option String :=
  match rangeParse range with
  | none => none
  | some comps => (versions.foldl (maxSatStep comps) none).map Prod.fst

/-- `semver.major` (only ever applied to valid versions in this code). -/
def semverMajor (s : String) : Nat :=
  ((parseSemVer s).getD ⟨0, 0, 0, []⟩).major

/-! ## `src/utils/semverUtils.ts` -/

/-- The closed set of issue types. -/
inductive VersionIssueType where
  | outdated | duplicate | conflict | error | vulnerable | advice
  deriving DecidableEq

/-- `VersionIssue` from `semverUtils.ts`. -/
structure VersionIssue where
  type : VersionIssueType
  message : String
  affectedVersions : Option (List String) := none
  deriving DecidableEq

/-- JavaScript string falsiness of a `string | null | undefined` value. -/
def jsFalsy : Option String → Bool
  | none => true
  | some s => s.isEmpty

/-- JavaScript truthiness of a `string | null | undefined` value. -/
def truthy (o : Option String) : Bool :=
  !jsFalsy o

/-- `normalizeRange` (`semverUtils.ts:28`): trim; empty or `*` become `*`;
otherwise the result of `semver.validRange`, falling back to the *trimmed*
string when validation fails.  The `catch` branch of the source is
unreachable because `semver.validRange` never throws, so the function is
total. -/
def normalizeRange (range : String) : String :=
  let cleaned := jsTrim range
  if cleaned = "" ∨ cleaned = "*" then "*"
  else
    match validRange cleaned with
    | some v => v
    | none => cleaned

/-- `findMaxSatisfying` (`semverUtils.ts:18`). -/
def findMaxSatisfying (range : String) (versions : List String) : Option String :=
  if range = "" ∨ versions.isEmpty then none
  else maxSatisfying versions (normalizeRange range)

/-- `compareVersions` (`semverUtils.ts:44`): missing-vs-present ordering
first; then `semver.eq`/`semver.gt`, which parse both arguments and throw
`Invalid Version` on a non-version string. -/
def compareVersions (a b : Option String) : Except String Int :=
  if jsFalsy a && jsFalsy b then Except.ok 0
  else if jsFalsy a then Except.ok (-1)
  else if jsFalsy b then Except.ok 1
  else
    let sa := a.getD ""
    let sb := b.getD ""
    match parseSemVer sa with
    | none => Except.error ("Invalid Version: " ++ sa)
    | some va =>
      match parseSemVer sb with
      | none => Except.error ("Invalid Version: " ++ sb)
      | some vb =>
        if compareSemVer va vb = 0 then Except.ok 0
        else if compareSemVer va vb > 0 then Except.ok 1
        else Except.ok (-1)

/-- `isOutdated` (`semverUtils.ts:60`): false on missing input; parse
failures are caught and yield `false`. -/
def isOutdated (resolved latest : Option String) : Bool :=
  if jsFalsy resolved || jsFalsy latest then false
  else
    match parseSemVer (resolved.getD ""), parseSemVer (latest.getD "") with
    | some r, some l => decide (compareSemVer r l < 0)
    | _, _ => false

/-- First character is a digit (the `/^\d/` test). -/
def headIsDigit (s : String) : Bool :=
  match s.data with
  | [] => false
  | c :: _ => c.isDigit

/-- `describeRange` (`semverUtils.ts:86`): classify the *normalized* range
by an ordered prefix test. -/
def describeRange (range : String) : String :=
  let normalized := normalizeRange range
  if normalized = "*" then "Acepta cualquier versión disponible."
  else if strStartsWith normalized "^" then
    "Permite actualizaciones menores y de parches dentro de la misma versión mayor."
  else if strStartsWith normalized "~" then
    "Permite actualizaciones de parches dentro de la misma versión menor."
  else if strStartsWith normalized ">=" then
    "Acepta cualquier versión mayor o igual al mínimo indicado."
  else if headIsDigit normalized then
    "Bloquea la dependencia a una versión exacta."
  else
    "Rango personalizado (" ++ normalized ++ ")."

/-- The `/^>=\s*/` strip used for the `>=` advice rule. -/
def stripGtePrefix (s : String) : String :=
  if strStartsWith s ">=" then
    String.mk ((strDrop s 2).data.dropWhile Char.isWhitespace)
  else s

/-- `buildRangeAdvice` (`semverUtils.ts:106`): the advice rules, evaluated
in source order.  The `*` rule returns early; the remaining four rules
each append at most one advice issue. -/
def buildRangeAdvice (range : String) (resolvedVersion latestVersion : Option String) :
    List VersionIssue :=
  let normalized := normalizeRange range
  let preferredVersion : Option String :=
    match resolvedVersion with
    | some v => some v
    | none => latestVersion
  if normalized = "*" then
    [{ type := VersionIssueType.advice,
       message :=
         if truthy preferredVersion then
           "El rango abierto \x27*\x27 permite cualquier versión. Cambia a ^" ++
             preferredVersion.getD "" ++ " para acotar las actualizaciones."
         else
           "El rango abierto \x27*\x27 permite cualquier versión. Cambia a un rango acotado (^ o ~) para mejorar la reproducibilidad." }]
  else
    let p := preferredVersion.getD ""
    let i1 : List VersionIssue :=
      if semverValid normalized && truthy preferredVersion then
        [{ type := VersionIssueType.advice,
           message := "El rango fija la versión exacta " ++ normalized ++
             ". Cambia a ^" ++ p ++ " para seguir recibiendo parches compatibles." }]
      else []
    let i2 : List VersionIssue :=
      if strStartsWith normalized "~" && truthy preferredVersion then
        [{ type := VersionIssueType.advice,
           message := "El rango " ++ normalized ++ " solo acepta parches. Considera ^" ++
             p ++ " para incluir actualizaciones menores seguras." }]
      else []
    let i3 : List VersionIssue :=
      if strStartsWith normalized ">=" &&
          (truthy preferredVersion && semverValid (stripGtePrefix normalized)) then
        [{ type := VersionIssueType.advice,
           message := "El rango " ++ normalized ++
             " permite saltos mayores potencialmente incompatibles. Limita a ^" ++
             p ++ " para mantener estabilidad." }]
      else []
    let i4 : List VersionIssue :=
      if strStartsWith normalized "^" && truthy latestVersion && truthy resolvedVersion &&
          semverValid (latestVersion.getD "") && semverValid (resolvedVersion.getD "") then
        if semverMajor (latestVersion.getD "") > semverMajor (resolvedVersion.getD "") then
          [{ type := VersionIssueType.advice,
             message := "Hay una nueva versión mayor disponible (" ++ latestVersion.getD "" ++
               "). Evalúa actualizar el rango a ^" ++ latestVersion.getD "" ++
               " tras revisar cambios incompatibles." }]
        else []
      else []
    i1 ++ i2 ++ i3 ++ i4

/-- `semver.compare` lifted to strings through a junk default; only ever
used on strings already filtered by `semver.valid`, where it coincides
with the library. -/
def semverCompareStr (a b : String) : Int :=
  compareSemVer ((parseSemVer a).getD ⟨0, 0, 0, []⟩) ((parseSemVer b).getD ⟨0, 0, 0, []⟩)

/-- `semver.rcompare`: reverse comparison, for descending sorts. -/
def semverRCompareStr (a b : String) : Int :=
  semverCompareStr b a

/-- `Array.prototype.sort(c)` for a coherent comparator `c`: the unique
stable reordering sorted by `c`, realized by insertion sort over
`c a b ≤ 0`. -/
def sortByCmp (c : String → String → Int) (l : List String) : List String :=
  @List.insertionSort String (fun a b => c a b ≤ 0)
    (fun a b => inferInstanceAs (Decidable (c a b ≤ 0))) l

/-- The issue list built for one duplicated package (the loop body of
`collectDuplicateIssues`): the `duplicate` issue listing the versions in
first-seen order, then — when the descending semver sort of the valid
versions is nonempty — an `advice` issue recommending `^` of its head. -/
def duplicateIssuesFor (versionList : List String) : List VersionIssue :=
  let sorted := sortByCmp semverRCompareStr (versionList.filter semverValid)
  let issues : List VersionIssue :=
    [{ type := VersionIssueType.duplicate,
       message := "Se detectaron múltiples versiones instaladas: " ++
         String.intercalate ", " versionList,
       affectedVersions := some versionList }]
  match sorted.head? with
  | some recommended =>
    issues ++ [{ type := VersionIssueType.advice,
                 message := "Actualiza los manifiestos a ^" ++ recommended ++
                   " para unificar las " ++ toString versionList.length ++
                   " variantes detectadas." }]
  | none => issues

/-- `collectDuplicateIssues` (`semverUtils.ts:165`): for every package
whose recorded version set has more than one element, record the issues of
`duplicateIssuesFor` under its name, in entry order. -/
def collectDuplicateIssues (resolvedVersions : List (String × List String)) :
    List (String × List VersionIssue) :=
  resolvedVersions.foldl
    (fun acc entry =>
      if entry.2.length > 1 then acc ++ [(entry.1, duplicateIssuesFor entry.2)]
      else acc)
    []

/-- The `(type, message)` membership test of `mergeIssues`. -/
def issueKeyMatches (issue item : VersionIssue) : Bool :=
  decide (item.type = issue.type) && decide (item.message = issue.message)

/-- `merged.find(item => item.type === issue.type && item.message ===
issue.message)` coerced to a boolean. -/
def hasIssueKey (l : List VersionIssue) (issue : VersionIssue) : Bool :=
  l.any (fun item => issueKeyMatches issue item)

/-- The loop body of `mergeIssues`. -/
def mergeStep (merged : List VersionIssue) (issue : VersionIssue) :
    List VersionIssue :=
  if hasIssueKey merged issue then merged else merged ++ [issue]

/-- `mergeIssues` (`semverUtils.ts:195`): append the incoming issues whose
`(type, message)` pair is not already present (in the original list or in
an earlier appended issue). -/
def mergeIssues (existing incoming : List VersionIssue) : List VersionIssue :=
  if incoming.isEmpty then existing
  else incoming.foldl mergeStep existing

/-! ## The resolved dependency graph (`src/lib/VersionResolver.ts` types) -/

/-- `DependencyEdge`: a directed edge between node ids (`from`/`to` in the
source; renamed because `from` is a Lean keyword). -/
structure DependencyEdge where
  fromId : String
  toId : String
  fromLabel : String
  toLabel : String
  deriving DecidableEq

/-- `DependencyNode`: one resolved dependency occurrence.  The tree is a
nested inductive through the `children` list. -/
inductive DependencyNode where
  | mk
    (name : String)
    (nodeId : String)
    (declaredRange : String)
    (resolvedVersion : Option String)
    (latestVersion : Option String)
    (rangeDescription : String)
    (issues : List VersionIssue)
    (children : List DependencyNode)
    (edges : List DependencyEdge)

def DependencyNode.name : DependencyNode → String
  | .mk n _ _ _ _ _ _ _ _ => n

def DependencyNode.nodeId : DependencyNode → String
  | .mk _ i _ _ _ _ _ _ _ => i

def DependencyNode.issues : DependencyNode → List VersionIssue
  | .mk _ _ _ _ _ _ is _ _ => is

def DependencyNode.children : DependencyNode → List DependencyNode
  | .mk _ _ _ _ _ _ _ cs _ => cs

/-- `DependencyGraphResult`: the resolver's output. -/
structure DependencyGraphResult where
  tree : List DependencyNode
  edges : List DependencyEdge
  duplicates : List (String × List VersionIssue)

/-! ## `src/utils/diffUtils.ts` -/

/-- `IssueDiffSummary`. -/
structure IssueDiffSummary where
  introduced : Nat
  resolved : Nat
  baselineTotal : Nat
  targetTotal : Nat
  deriving DecidableEq

/-- The canonical issue key `nodeId::type::message` uses the literal type
tag strings of the TypeScript union. -/
def issueTypeTag : VersionIssueType → String
  | VersionIssueType.outdated => "outdated"
  | VersionIssueType.duplicate => "duplicate"
  | VersionIssueType.conflict => "conflict"
  | VersionIssueType.error => "error"
  | VersionIssueType.vulnerable => "vulnerable"
  | VersionIssueType.advice => "advice"

/-- The canonical key of one issue on one node. -/
def issueKey (nodeId : String) (issue : VersionIssue) : String :=
  nodeId ++ "::" ++ issueTypeTag issue.type ++ "::" ++ issue.message

mutual
/-- The keys contributed by one node's subtree, in depth-first visit order
(`collectIssuesFromNode` before deduplication by the `Set`). -/
def collectIssueKeys : DependencyNode → List String
  | .mk _ nodeId _ _ _ _ issues children _ =>
    issues.map (issueKey nodeId) ++ collectIssueKeysList children

/-- Keys of a node list, left to right. -/
def collectIssueKeysList : List DependencyNode → List String
  | [] => []
  | n :: ns => collectIssueKeys n ++ collectIssueKeysList ns
end

/-- Insertion-ordered `Set.add`. -/
def setAdd (acc : List String) (k : String) : List String :=
  if k ∈ acc then acc else acc ++ [k]

/-- `collectIssues`: the `Set` of canonical keys over the whole tree —
the depth-first key stream deduplicated in first-seen order. -/
def collectIssues (result : Option DependencyGraphResult) : List String :=
  match result with
  | none => []
  | some r => (collectIssueKeysList r.tree).foldl setAdd []

/-- `diffIssueSummary` (`diffUtils.ts`): `null` when both graphs are
absent; otherwise set differences of the canonical key sets. -/
def diffIssueSummary (baseline target : Option DependencyGraphResult) :
    Option IssueDiffSummary :=
  if baseline.isNone && target.isNone then none
  else
    let baselineIssues := collectIssues baseline
    let targetIssues := collectIssues target
    some
      { introduced :=
          (targetIssues.filter (fun k => k ∉ baselineIssues)).length,
        resolved :=
          (baselineIssues.filter (fun k => k ∉ targetIssues)).length,
        baselineTotal := baselineIssues.length,
        targetTotal := targetIssues.length }

/-! ## The report aggregator (`src/utils/reportUtils.ts`) -/

/-- One flattened issue entry of the report. -/
structure IssueReportEntry where
  packageName : String
  nodeId : String
  type : VersionIssueType
  message : String
  path : String
  deriving DecidableEq

/-- `ISSUE_SORT_ORDER`: the fixed severity order. -/
def ISSUE_SORT_ORDER : List VersionIssueType :=
  [VersionIssueType.vulnerable, VersionIssueType.error, VersionIssueType.conflict,
   VersionIssueType.outdated, VersionIssueType.duplicate, VersionIssueType.advice]

/-- Position of a type in `ISSUE_SORT_ORDER` (`indexOf`; every type is
present, so the `-1` missing case cannot occur). -/
def issueRank (t : VersionIssueType) : Int :=
  match t with
  | VersionIssueType.vulnerable => 0
  | VersionIssueType.error => 1
  | VersionIssueType.conflict => 2
  | VersionIssueType.outdated => 3
  | VersionIssueType.duplicate => 4
  | VersionIssueType.advice => 5

/-- The sort comparator of `createAnalysisReport`: severity rank
difference, then package name, then message (`localeCompare` modelled as
code-point comparison). -/
def cmpEntry : IssueReportEntry → IssueReportEntry → Int :=
  cmpChain (cmpOn cmpIntSub (fun e => issueRank e.type))
    (cmpChain (cmpOn cmpString IssueReportEntry.packageName)
      (cmpOn cmpString IssueReportEntry.message))

theorem cmpEntry_laws : CmpLaws cmpEntry :=
  (cmpIntSub_laws.onProj (fun e : IssueReportEntry => issueRank e.type)).chain
    ((cmpString_laws.onProj IssueReportEntry.packageName).chain
      (cmpString_laws.onProj IssueReportEntry.message))

/-- The sort relation induced by the comparator. -/
def entryLE (a b : IssueReportEntry) : Prop :=
  cmpEntry a b ≤ 0

instance : DecidableRel entryLE :=
  fun a b => inferInstanceAs (Decidable (cmpEntry a b ≤ 0))

instance : IsTotal IssueReportEntry entryLE :=
  ⟨fun a b => cmpEntry_laws.total a b⟩

instance : IsTrans IssueReportEntry entryLE :=
  ⟨fun a b c => cmpEntry_laws.leTrans a b c⟩

mutual
/-- The issue entries contributed by one node, depth first, with the
breadcrumb path built as `parent › child` (`visit` in
`createAnalysisReport`). -/
def reportEntriesOfNode (parentPath : String) : DependencyNode → List IssueReportEntry
  | .mk name nodeId _ _ _ _ issues children _ =>
    let currentPath := if parentPath = "" then name else parentPath ++ " › " ++ name
    issues.map (fun i =>
        { packageName := name, nodeId := nodeId, type := i.type,
          message := i.message, path := currentPath }) ++
      reportEntriesOfNodes currentPath children

/-- Entries of a node list, left to right. -/
def reportEntriesOfNodes (parentPath : String) : List DependencyNode → List IssueReportEntry
  | [] => []
  | n :: ns => reportEntriesOfNode parentPath n ++ reportEntriesOfNodes parentPath ns
end

mutual
/-- Number of nodes in a subtree. -/
def countNodes : DependencyNode → Nat
  | .mk _ _ _ _ _ _ _ children _ => 1 + countNodesList children

def countNodesList : List DependencyNode → Nat
  | [] => 0
  | n :: ns => countNodes n + countNodesList ns
end

mutual
/-- Number of leaf nodes (empty `children`) in a subtree. -/
def countLeaves : DependencyNode → Nat
  | .mk _ _ _ _ _ _ _ children _ =>
    match children with
    | [] => 1
    | _ :: _ => countLeavesList children

def countLeavesList : List DependencyNode → Nat
  | [] => 0
  | n :: ns => countLeaves n + countLeavesList ns
end

mutual
/-- Greatest depth reached (`visit` is entered with depth 1 at the
roots). -/
def maxDepthOfNode (depth : Nat) : DependencyNode → Nat
  | .mk _ _ _ _ _ _ _ children _ =>
    max depth (maxDepthOfNodes (depth + 1) children)

def maxDepthOfNodes (depth : Nat) : List DependencyNode → Nat
  | [] => 0
  | n :: ns => max (maxDepthOfNode depth n) (maxDepthOfNodes depth ns)
end

mutual
/-- All package names in a subtree, depth first. -/
def namesOfNode : DependencyNode → List String
  | .mk name _ _ _ _ _ _ children _ => name :: namesOfNodes children

def namesOfNodes : List DependencyNode → List String
  | [] => []
  | n :: ns => namesOfNode n ++ namesOfNodes ns
end

/-- The per-type issue counters (all six counters are initialized to 0, so
the count is plain filtering). -/
def issuesByType (entries : List IssueReportEntry) (t : VersionIssueType) : Nat :=
  (entries.filter (fun e => e.type = t)).length

/-- The summary block of the report. -/
structure AnalysisReportSummary where
  directDependencies : Nat
  totalNodes : Nat
  uniquePackages : Nat
  leafNodes : Nat
  maxDepth : Nat
  dependencyEdges : Nat
  totalIssues : Nat
  duplicatePackages : Nat

/-- The analysis report (the metadata echo block and the Markdown renderer
are presentation data outside every claim and are not modelled). -/
structure AnalysisReport where
  formatVersion : String
  summary : AnalysisReportSummary
  issuesByType : VersionIssueType → Nat
  topIssues : List IssueReportEntry
  duplicates : List (String × List VersionIssue)
  tree : List DependencyNode
  edges : List DependencyEdge

/-- The stable sort of the flattened entries by `cmpEntry`
(`issueEntries.slice().sort(...)`). -/
def sortEntries (entries : List IssueReportEntry) : List IssueReportEntry :=
  List.insertionSort entryLE entries

/-- `createAnalysisReport` (`reportUtils.ts:67`): one depth-first walk
computing the summary counters and the flattened issue entries, then the
global severity sort truncated to the top 12. -/
def createAnalysisReport (result : DependencyGraphResult) : AnalysisReport :=
  let issueEntries := reportEntriesOfNodes "" result.tree
  let sortedIssues := sortEntries issueEntries
  { formatVersion := "1.0.0",
    summary :=
      { directDependencies := result.tree.length,
        totalNodes := countNodesList result.tree,
        uniquePackages := ((namesOfNodes result.tree).foldl setAdd []).length,
        leafNodes := countLeavesList result.tree,
        maxDepth := maxDepthOfNodes 1 result.tree,
        dependencyEdges := result.edges.length,
        totalIssues := issueEntries.length,
        duplicatePackages := result.duplicates.length },
    issuesByType := issuesByType issueEntries,
    topIssues := sortedIssues.take 12,
    duplicates := result.duplicates,
    tree := result.tree,
    edges := result.edges }

/-! ## The registry client (`src/utils/npmRegistry.ts`) -/

/-- Per-version manifest data from the registry. -/
structure NpmVersionMetadata where
  name : String
  version : String
  dependencies : List (String × String)
  devDependencies : List (String × String)
  peerDependencies : List (String × String)
  deriving DecidableEq

/-- Package metadata (`versions` map and `dist-tags`). -/
structure NpmPackageMetadata where
  name : String
  versions : List (String × NpmVersionMetadata)
  distTags : List (String × String)
  deriving DecidableEq

/-- Outcome of one network fetch: a parsed body, or a non-success HTTP
status.  The registry is modelled as a function from package name to
outcome, standing for the network at one instant. -/
inductive FetchOutcome where
  | success (metadata : NpmPackageMetadata)
  | httpFailure (status : Nat)

/-- The metadata cache, keyed by package name. -/
abbrev MetadataCache : Type := List (String × NpmPackageMetadata)

/-- `Map.prototype.get` on the cache. -/
def cacheLookup (cache : MetadataCache) (pkgName : String) :
    Option NpmPackageMetadata :=
  match cache.find? (fun e => e.1 = pkgName) with
  | some e => some e.2
  | none => none

/-- `Map.prototype.set` on the cache. -/
def cacheSet (cache : MetadataCache) (pkgName : String)
    (metadata : NpmPackageMetadata) : MetadataCache :=
  cache ++ [(pkgName, metadata)]

/-- `fetchPackageFromRegistry`: throw with the package name and HTTP
status on a non-success response. -/
def fetchPackageFromRegistry (registry : String → FetchOutcome)
    (pkgName : String) : Except String NpmPackageMetadata :=
  match registry pkgName with
  | FetchOutcome.success m => Except.ok m
  | FetchOutcome.httpFailure status =>
    Except.error ("No se pudo consultar " ++ pkgName ++ ": " ++ toString status)

/-- `getPackageMetadata` (`npmRegistry.ts`): cache hit returns without
fetching; otherwise fetch, cache only on success, and re-throw failures.
The result carries the new cache state and the list of fetches performed
by this call. -/
def getPackageMetadata (registry : String → FetchOutcome)
    (cache : MetadataCache) (pkgName : String) :
    Except String NpmPackageMetadata × MetadataCache × List String :=
  match cacheLookup cache pkgName with
  | some m => (Except.ok m, cache, [])
  | none =>
    match fetchPackageFromRegistry registry pkgName with
    | Except.ok m => (Except.ok m, cacheSet cache pkgName m, [pkgName])
    | Except.error e => (Except.error e, cache, [pkgName])

/-! # Supporting lemmas and claim theorems -/

/-! ## `mergeIssues` (claim C4) -/

/-- The claim's characterization of the appended part: walk `incoming` in
order and keep exactly the issues whose `(type, message)` pair occurs
neither in the already-present issues nor in an earlier kept issue. -/
def selectNewIssues (seen : List VersionIssue) : List VersionIssue → List VersionIssue
  | [] => []
  | i :: is =>
    if hasIssueKey seen i then selectNewIssues seen is
    else i :: selectNewIssues (seen ++ [i]) is

theorem hasIssueKey_append (l1 l2 : List VersionIssue) (i : VersionIssue) :
    hasIssueKey (l1 ++ l2) i = (hasIssueKey l1 i || hasIssueKey l2 i) := by
  unfold hasIssueKey
  exact List.any_append

theorem issueKeyMatches_refl (i : VersionIssue) : issueKeyMatches i i = true := by
  unfold issueKeyMatches
  simp

theorem mergeFold_eq_selectNew (I : List VersionIssue) :
    ∀ E : List VersionIssue, I.foldl mergeStep E = E ++ selectNewIssues E I := by
  induction I with
  | nil => intro E; simp [selectNewIssues]
  | cons i is ih =>
    intro E
    simp only [List.foldl_cons, selectNewIssues]
    by_cases h : hasIssueKey E i
    · rw [if_pos h]
      have hstep : mergeStep E i = E := by unfold mergeStep; rw [if_pos h]
      rw [hstep, ih]
    · rw [if_neg h]
      have hstep : mergeStep E i = E ++ [i] := by unfold mergeStep; rw [if_neg h]
      rw [hstep, ih (E ++ [i])]
      simp

theorem hasIssueKey_foldl_mono (I : List VersionIssue) :
    ∀ (E : List VersionIssue) (k : VersionIssue), hasIssueKey E k = true →
      hasIssueKey (I.foldl mergeStep E) k = true := by
  induction I with
  | nil => intro E k h; simpa using h
  | cons i is ih =>
    intro E k h
    simp only [List.foldl_cons]
    apply ih
    unfold mergeStep
    by_cases hi : hasIssueKey E i
    · rw [if_pos hi]; exact h
    · rw [if_neg hi, hasIssueKey_append]
      simp [h]

theorem hasIssueKey_foldl_mem (I : List VersionIssue) :
    ∀ (E : List VersionIssue) (k : VersionIssue), k ∈ I →
      hasIssueKey (I.foldl mergeStep E) k = true := by
  induction I with
  | nil => intro E k hk; cases hk
  | cons i is ih =>
    intro E k hk
    simp only [List.foldl_cons]
    rcases List.mem_cons.mp hk with h1 | h1
    · subst h1
      apply hasIssueKey_foldl_mono
      unfold mergeStep
      by_cases hi : hasIssueKey E k
      · rw [if_pos hi]; exact hi
      · rw [if_neg hi, hasIssueKey_append]
        have : hasIssueKey [k] k = true := by
          unfold hasIssueKey
          simp [issueKeyMatches_refl]
        simp [this]
    · exact ih (mergeStep E i) k h1

theorem mergeFold_fixed (I : List VersionIssue) :
    ∀ A : List VersionIssue, (∀ i ∈ I, hasIssueKey A i = true) →
      I.foldl mergeStep A = A := by
  induction I with
  | nil => intro A _; rfl
  | cons i is ih =>
    intro A h
    simp only [List.foldl_cons]
    have hstep : mergeStep A i = A := by
      unfold mergeStep
      rw [if_pos (h i (List.mem_cons_self i is))]
    rw [hstep]
    exact ih A (fun j hj => h j (List.mem_cons_of_mem i hj))

theorem mergeIssues_eq_foldl (E I : List VersionIssue) :
    mergeIssues E I = I.foldl mergeStep E := by
  unfold mergeIssues
  by_cases h : I.isEmpty
  · rw [if_pos h]
    rw [List.isEmpty_iff.mp h]
    rfl
  · rw [if_neg h]

/-- **C4.** `mergeIssues E I` is `E` followed by exactly the issues of `I`
(in order) whose `(type, message)` pair occurs neither in `E` nor in an
earlier appended issue of `I`; consequently merging the same incoming list
a second time is a no-op. -/
theorem mergeIssues_appends_new_and_idempotent :
    (∀ E I, mergeIssues E I = E ++ selectNewIssues E I) ∧
    (∀ E I, mergeIssues (mergeIssues E I) I = mergeIssues E I) := by
  constructor
  · intro E I
    rw [mergeIssues_eq_foldl, mergeFold_eq_selectNew]
  · intro E I
    rw [mergeIssues_eq_foldl E I, mergeIssues_eq_foldl (I.foldl mergeStep E) I]
    exact mergeFold_fixed I (I.foldl mergeStep E)
      (fun i hi => hasIssueKey_foldl_mem I E i hi)

/-! ## `diffIssueSummary` (claim C2) -/

theorem mem_foldl_setAdd (l : List String) :
    ∀ (acc : List String) (k : String),
      k ∈ l.foldl setAdd acc ↔ k ∈ acc ∨ k ∈ l := by
  induction l with
  | nil => intro acc k; simp
  | cons x xs ih =>
    intro acc k
    simp only [List.foldl_cons]
    rw [ih]
    unfold setAdd
    by_cases hx : x ∈ acc
    · rw [if_pos hx]
      constructor
      · rintro (h | h)
        · exact Or.inl h
        · exact Or.inr (List.mem_cons_of_mem x h)
      · rintro (h | h)
        · exact Or.inl h
        · rcases List.mem_cons.mp h with rfl | h2
          · exact Or.inl hx
          · exact Or.inr h2
    · rw [if_neg hx]
      simp only [List.mem_append, List.mem_cons, List.mem_singleton]
      tauto

theorem nodup_foldl_setAdd (l : List String) :
    ∀ acc : List String, acc.Nodup → (l.foldl setAdd acc).Nodup := by
  induction l with
  | nil => intro acc h; simpa using h
  | cons x xs ih =>
    intro acc h
    simp only [List.foldl_cons]
    apply ih
    unfold setAdd
    by_cases hx : x ∈ acc
    · rw [if_pos hx]; exact h
    · rw [if_neg hx]
      rw [List.nodup_append]
      refine ⟨h, List.nodup_singleton x, ?_⟩
      intro a ha hmem
      rcases List.mem_singleton.mp hmem with rfl
      exact hx ha

theorem filter_not_mem_self (l : List String) :
    l.filter (fun k => k ∉ l) = [] := by
  rw [List.filter_eq_nil_iff]
  intro a ha
  simp [ha]

/-- **C2 (amended).**  For every graph `G`, diffing `G` against itself
yields no introduced and no resolved issues, and both totals equal the
number of *distinct* canonical `nodeId::type::message` keys in `G` — the
`Set` collection deduplicates repeated keys, so issue instances that share
a key (same `nodeId`, type and message on two node occurrences) are
counted once.  The key set is duplicate-free and contains exactly the keys
occurring in the tree. -/
theorem diffIssueSummary_self (G : DependencyGraphResult) :
    diffIssueSummary (some G) (some G) =
      some { introduced := 0, resolved := 0,
             baselineTotal := (collectIssues (some G)).length,
             targetTotal := (collectIssues (some G)).length } ∧
    (collectIssues (some G)).Nodup ∧
    (∀ k, k ∈ collectIssues (some G) ↔ k ∈ collectIssueKeysList G.tree) := by
  refine ⟨?_, ?_, ?_⟩
  · unfold diffIssueSummary
    rw [if_neg (by simp)]
    have hf := filter_not_mem_self (collectIssues (some G))
    simp only [hf, List.length_nil]
  · unfold collectIssues
    exact nodup_foldl_setAdd _ [] List.nodup_nil
  · intro k
    unfold collectIssues
    rw [mem_foldl_setAdd]
    simp

mutual
/-- Stated from the claim's words: the number of issue instances in a
subtree, counting every issue on every node occurrence. -/
def issueInstancesOfNode : DependencyNode → Nat
  | .mk _ _ _ _ _ _ issues children _ =>
    issues.length + issueInstancesOfNodes children

def issueInstancesOfNodes : List DependencyNode → Nat
  | [] => 0
  | n :: ns => issueInstancesOfNode n + issueInstancesOfNodes ns
end

/-- Stated from the claim's words: the total number of issue instances
attached to nodes anywhere in the tree. -/
def totalIssueInstances (G : DependencyGraphResult) : Nat :=
  issueInstancesOfNodes G.tree

/-- **C2 counterexample.**  Two node occurrences with the same `nodeId`
carrying the same `(type, message)` issue are two issue instances, but the
`Set` of canonical keys collapses them: `diffIssueSummary` reports totals
of 1, not the instance count 2 the claim asserts. -/
theorem diffIssueSummary_self_counterexample :
    let issue : VersionIssue := ⟨VersionIssueType.advice, "m", none⟩
    let child : DependencyNode :=
      DependencyNode.mk "a" "a@1.0.0" "^1.0.0" (some "1.0.0") (some "1.0.0")
        "d" [issue] [] []
    let root : DependencyNode :=
      DependencyNode.mk "a" "a@1.0.0" "^1.0.0" (some "1.0.0") (some "1.0.0")
        "d" [issue] [child] []
    let G : DependencyGraphResult := ⟨[root], [], []⟩
    totalIssueInstances G = 2 ∧
    diffIssueSummary (some G) (some G) =
      some { introduced := 0, resolved := 0, baselineTotal := 1, targetTotal := 1 } ∧
    diffIssueSummary (some G) (some G) ≠
      some { introduced := 0, resolved := 0, baselineTotal := 2, targetTotal := 2 } := by
  refine ⟨by decide, by decide, by decide⟩

/-! ## `normalizeRange` (claim C6) -/

/-- **C6 (amended).**  `normalizeRange` is a total function (the `catch`
branch is dead because the validator reports failure by returning `null`
rather than throwing); inputs that trim to the empty string or `*`
normalize to `*`; and when the validator fails, the function returns the
*trimmed* input — not the original string, which differs from it whenever
the input carries surrounding whitespace. -/
theorem normalizeRange_fallback :
    (∀ r : String, (jsTrim r = "" ∨ jsTrim r = "*") → normalizeRange r = "*") ∧
    (∀ r : String, validRange (jsTrim r) = none → jsTrim r ≠ "" → jsTrim r ≠ "*" →
      normalizeRange r = jsTrim r) := by
  constructor
  · intro r h
    unfold normalizeRange
    rw [if_pos h]
  · intro r h h1 h2
    unfold normalizeRange
    rw [if_neg (by tauto), h]

theorem normalizeRange_fallback_witness :
    normalizeRange " * " = "*" ∧ normalizeRange "  ^foo  " = "^foo" := by
  constructor
  · exact normalizeRange_fallback.1 " * " (Or.inr (by decide))
  · have h := normalizeRange_fallback.2 "  ^foo  " (by decide) (by decide) (by decide)
    rw [h]
    decide

/-- **C6 counterexample.**  On `"  ^foo  "` the validator fails without
throwing, and `normalizeRange` returns the trimmed string `"^foo"`, not
the original input unchanged. -/
theorem normalizeRange_counterexample :
    validRange "^foo" = none ∧
    normalizeRange "  ^foo  " = "^foo" ∧
    "^foo" ≠ "  ^foo  " := by
  refine ⟨by decide, by decide, by decide⟩

/-! ## `describeRange` (claim C1) -/

/-- **C1 (amended).**  `describeRange` classifies the *normalized* range
through mutually exclusive prefix rules, in order: `*`, then a `^` prefix,
then a `~` prefix, then a `>=` prefix, then a leading digit, else the
custom label.  However, normalization expands every valid caret or tilde
range into `>=`-comparator form, so `^1.2.3` and `~1.2.3` both receive the
open-lower-bound label; the `^`/`~` branches fire only when the normalized
string itself still starts with `^`/`~` (ranges the validator rejects). -/
theorem describeRange_classification :
    (∀ r : String,
      (normalizeRange r = "*" →
        describeRange r = "Acepta cualquier versión disponible.") ∧
      (normalizeRange r ≠ "*" → strStartsWith (normalizeRange r) "^" = true →
        describeRange r =
          "Permite actualizaciones menores y de parches dentro de la misma versión mayor.") ∧
      (normalizeRange r ≠ "*" → strStartsWith (normalizeRange r) "^" = false →
        strStartsWith (normalizeRange r) "~" = true →
        describeRange r =
          "Permite actualizaciones de parches dentro de la misma versión menor.") ∧
      (normalizeRange r ≠ "*" → strStartsWith (normalizeRange r) "^" = false →
        strStartsWith (normalizeRange r) "~" = false →
        strStartsWith (normalizeRange r) ">=" = true →
        describeRange r =
          "Acepta cualquier versión mayor o igual al mínimo indicado.") ∧
      (normalizeRange r ≠ "*" → strStartsWith (normalizeRange r) "^" = false →
        strStartsWith (normalizeRange r) "~" = false →
        strStartsWith (normalizeRange r) ">=" = false →
        headIsDigit (normalizeRange r) = true →
        describeRange r = "Bloquea la dependencia a una versión exacta.") ∧
      (normalizeRange r ≠ "*" → strStartsWith (normalizeRange r) "^" = false →
        strStartsWith (normalizeRange r) "~" = false →
        strStartsWith (normalizeRange r) ">=" = false →
        headIsDigit (normalizeRange r) = false →
        describeRange r = "Rango personalizado (" ++ normalizeRange r ++ ").")) ∧
    describeRange "^1.2.3" = "Acepta cualquier versión mayor o igual al mínimo indicado." ∧
    describeRange "~1.2.3" = "Acepta cualquier versión mayor o igual al mínimo indicado." := by
  refine ⟨?_, by decide, by decide⟩
  intro r
  unfold describeRange
  refine ⟨?_, ?_, ?_, ?_, ?_, ?_⟩
  · intro h1
    rw [if_pos h1]
  · intro h1 h2
    rw [if_neg h1, if_pos h2]
  · intro h1 h2 h3
    rw [if_neg h1, if_neg (by simp [h2]), if_pos h3]
  · intro h1 h2 h3 h4
    rw [if_neg h1, if_neg (by simp [h2]), if_neg (by simp [h3]), if_pos h4]
  · intro h1 h2 h3 h4 h5
    rw [if_neg h1, if_neg (by simp [h2]), if_neg (by simp [h3]),
      if_neg (by simp [h4]), if_pos h5]
  · intro h1 h2 h3 h4 h5
    rw [if_neg h1, if_neg (by simp [h2]), if_neg (by simp [h3]),
      if_neg (by simp [h4]), if_neg (by simp [h5])]

theorem describeRange_classification_witness :
    describeRange "*" = "Acepta cualquier versión disponible." ∧
    describeRange "^foo" =
      "Permite actualizaciones menores y de parches dentro de la misma versión mayor." := by
  constructor
  · exact (describeRange_classification.1 "*").1 (by decide)
  · exact (describeRange_classification.1 "^foo").2.1 (by decide) (by decide)

/-- **C1 counterexample.**  `describeRange "^1.2.3"` yields the
open-lower-bound label, not the minor/patch-within-same-major label the
claim asserts (and `~1.2.3` likewise misses the patch-only label), because
`semver.validRange` rewrites `^1.2.3` to `>=1.2.3 <2.0.0-0`. -/
theorem describeRange_counterexample :
    normalizeRange "^1.2.3" = ">=1.2.3 <2.0.0-0" ∧
    describeRange "^1.2.3" = "Acepta cualquier versión mayor o igual al mínimo indicado." ∧
    describeRange "^1.2.3" ≠
      "Permite actualizaciones menores y de parches dentro de la misma versión mayor." ∧
    describeRange "~1.2.3" ≠
      "Permite actualizaciones de parches dentro de la misma versión menor." := by
  refine ⟨by decide, by decide, by decide, by decide⟩

/-! ## `buildRangeAdvice` (claim C5) -/

theorem isEmpty_false_of_ne {s : String} (h : s ≠ "") : s.isEmpty = false := by
  cases hs : s.isEmpty
  · rfl
  · exact absurd ((String.isEmpty_iff s).mp hs) h

theorem buildRangeAdvice_star_eq (range : String) (resolved latest : Option String)
    (h : normalizeRange range = "*") :
    buildRangeAdvice range resolved latest =
      [{ type := VersionIssueType.advice,
         message :=
           if truthy (match resolved with | some v => some v | none => latest) then
             "El rango abierto \x27*\x27 permite cualquier versión. Cambia a ^" ++
               (match resolved with | some v => some v | none => latest).getD "" ++
               " para acotar las actualizaciones."
           else
             "El rango abierto \x27*\x27 permite cualquier versión. Cambia a un rango acotado (^ o ~) para mejorar la reproducibilidad.",
         affectedVersions := none }] := by
  unfold buildRangeAdvice
  simp only [h, eq_self_iff_true, if_true]

/-- **C5.**  When the normalized range is `*`, `buildRangeAdvice` emits
exactly one issue, of type `advice`, suggesting `^` of the resolved
version (falling back to the latest version when resolved is absent); in
particular `buildRangeAdvice "*" "1.2.3" "1.2.3"` is one advice issue
whose message contains `^1.2.3`, and no other rule fires. -/
theorem buildRangeAdvice_star_rule :
    (buildRangeAdvice "*" (some "1.2.3") (some "1.2.3") =
      [{ type := VersionIssueType.advice,
         message := "El rango abierto \x27*\x27 permite cualquier versión. Cambia a ^1.2.3 para acotar las actualizaciones.",
         affectedVersions := none }]) ∧
    (∃ pre suf : String,
      "El rango abierto \x27*\x27 permite cualquier versión. Cambia a ^1.2.3 para acotar las actualizaciones." =
        pre ++ "^1.2.3" ++ suf) ∧
    (∀ (range : String) (resolved latest : Option String),
      normalizeRange range = "*" →
      ((buildRangeAdvice range resolved latest).length = 1 ∧
       (∀ i ∈ buildRangeAdvice range resolved latest, i.type = VersionIssueType.advice) ∧
       (∀ p : String, p ≠ "" → resolved = some p →
         buildRangeAdvice range resolved latest =
           [{ type := VersionIssueType.advice,
              message := "El rango abierto \x27*\x27 permite cualquier versión. Cambia a ^" ++
                p ++ " para acotar las actualizaciones.",
              affectedVersions := none }]) ∧
       (∀ p : String, p ≠ "" → resolved = none → latest = some p →
         buildRangeAdvice range resolved latest =
           [{ type := VersionIssueType.advice,
              message := "El rango abierto \x27*\x27 permite cualquier versión. Cambia a ^" ++
                p ++ " para acotar las actualizaciones.",
              affectedVersions := none }]))) := by
  refine ⟨by decide,
    ⟨"El rango abierto \x27*\x27 permite cualquier versión. Cambia a ",
     " para acotar las actualizaciones.", by decide⟩, ?_⟩
  intro range resolved latest h
  rw [buildRangeAdvice_star_eq range resolved latest h]
  refine ⟨rfl, ?_, ?_, ?_⟩
  · intro i hi
    rcases List.mem_singleton.mp hi with rfl
    rfl
  · intro p hp hr
    subst hr
    simp [truthy, jsFalsy, isEmpty_false_of_ne hp]
  · intro p hp hr hl
    subst hr; subst hl
    simp [truthy, jsFalsy, isEmpty_false_of_ne hp]

theorem buildRangeAdvice_star_rule_witness :
    buildRangeAdvice "*" none (some "2.0.0") =
      [{ type := VersionIssueType.advice,
         message := "El rango abierto \x27*\x27 permite cualquier versión. Cambia a ^2.0.0 para acotar las actualizaciones.",
         affectedVersions := none }] := by
  exact (buildRangeAdvice_star_rule.2.2 "*" none (some "2.0.0") (by decide)).2.2.2
    "2.0.0" (by decide) rfl rfl

/-! ## `compareVersions` vs `isOutdated` (claim C10) -/

/-- **C10.**  `compareVersions` applies missing-vs-present ordering when
either argument is null/undefined/empty (both missing compare equal, a
missing value is below any present value), returns an ordering for two
valid versions, but throws `Invalid Version` for any two non-empty strings
of which at least one is not a valid semantic version — e.g.
`("not-a-version", "1.0.0")` — whereas `isOutdated` catches the parse
failure and returns `false`. -/
theorem compareVersions_partiality :
    (∀ a b : Option String, jsFalsy a = true → jsFalsy b = true →
      compareVersions a b = Except.ok 0) ∧
    (∀ a b : Option String, jsFalsy a = true → jsFalsy b = false →
      compareVersions a b = Except.ok (-1)) ∧
    (∀ a b : Option String, jsFalsy a = false → jsFalsy b = true →
      compareVersions a b = Except.ok 1) ∧
    (∀ sa sb : String, (parseSemVer sa).isSome → (parseSemVer sb).isSome →
      ∃ k : Int, compareVersions (some sa) (some sb) = Except.ok k) ∧
    (∀ sa sb : String, sa ≠ "" → sb ≠ "" →
      (parseSemVer sa = none ∨ parseSemVer sb = none) →
      ∃ e : String, compareVersions (some sa) (some sb) = Except.error e) ∧
    compareVersions (some "not-a-version") (some "1.0.0") =
      Except.error "Invalid Version: not-a-version" ∧
    isOutdated (some "not-a-version") (some "1.0.0") = false := by
  have hparse_ne : ∀ s : String, (parseSemVer s).isSome → jsFalsy (some s) = false := by
    intro s hs
    unfold jsFalsy
    apply isEmpty_false_of_ne
    intro hempty
    rw [hempty] at hs
    exact absurd hs (by decide)
  refine ⟨?_, ?_, ?_, ?_, ?_, rfl, by decide⟩
  · intro a b ha hb
    unfold compareVersions
    rw [if_pos (by rw [ha, hb]; rfl)]
  · intro a b ha hb
    unfold compareVersions
    rw [if_neg (by rw [ha, hb]; decide), if_pos ha]
  · intro a b ha hb
    unfold compareVersions
    rw [if_neg (by rw [ha, hb]; decide), if_neg (by rw [ha]; decide), if_pos hb]
  · intro sa sb hsa hsb
    have ha := hparse_ne sa hsa
    have hb := hparse_ne sb hsb
    unfold compareVersions
    rw [if_neg (by rw [ha, hb]; decide), if_neg (by rw [ha]; decide),
      if_neg (by rw [hb]; decide)]
    rcases Option.isSome_iff_exists.mp hsa with ⟨va, hva⟩
    rcases Option.isSome_iff_exists.mp hsb with ⟨vb, hvb⟩
    simp only [Option.getD_some, hva, hvb]
    by_cases h0 : compareSemVer va vb = 0
    · exact ⟨0, by rw [if_pos h0]⟩
    · by_cases h1 : compareSemVer va vb > 0
      · exact ⟨1, by rw [if_neg h0, if_pos h1]⟩
      · exact ⟨-1, by rw [if_neg h0, if_neg h1]⟩
  · intro sa sb hsa hsb hinv
    have ha : jsFalsy (some sa) = false := by
      unfold jsFalsy; exact isEmpty_false_of_ne hsa
    have hb : jsFalsy (some sb) = false := by
      unfold jsFalsy; exact isEmpty_false_of_ne hsb
    unfold compareVersions
    rw [if_neg (by rw [ha, hb]; decide), if_neg (by rw [ha]; decide),
      if_neg (by rw [hb]; decide)]
    rcases hinv with h | h
    · simp only [Option.getD_some, h]
      exact ⟨"Invalid Version: " ++ sa, rfl⟩
    · simp only [Option.getD_some, h]
      cases hpa : parseSemVer sa with
      | none => exact ⟨"Invalid Version: " ++ sa, rfl⟩
      | some va => exact ⟨"Invalid Version: " ++ sb, rfl⟩

theorem compareVersions_partiality_witness :
    (∃ e : String, compareVersions (some "x") (some "y") = Except.error e) ∧
    compareVersions none none = Except.ok 0 := by
  constructor
  · exact compareVersions_partiality.2.2.2.2.1 "x" "y" (by decide) (by decide)
      (Or.inl (by decide))
  · exact compareVersions_partiality.1 none none rfl rfl

/-! ## `getPackageMetadata` (claim C9) -/

/-- **C9.**  A cache hit returns the cached metadata with no fetch; a miss
fetches once, raising on a non-success response with a message carrying
the package name and the HTTP status; only successful responses are
written to the cache — after a failure the cache is unchanged, so a
subsequent call for the same package fetches again. -/
theorem getPackageMetadata_cache_behaviour :
    (∀ (registry : String → FetchOutcome) (cache : MetadataCache)
        (pkg : String) (m : NpmPackageMetadata),
      cacheLookup cache pkg = some m →
      getPackageMetadata registry cache pkg = (Except.ok m, cache, [])) ∧
    (∀ (registry : String → FetchOutcome) (cache : MetadataCache)
        (pkg : String) (m : NpmPackageMetadata),
      cacheLookup cache pkg = none →
      registry pkg = FetchOutcome.success m →
      getPackageMetadata registry cache pkg =
        (Except.ok m, cacheSet cache pkg m, [pkg])) ∧
    (∀ (registry : String → FetchOutcome) (cache : MetadataCache)
        (pkg : String) (status : Nat),
      cacheLookup cache pkg = none →
      registry pkg = FetchOutcome.httpFailure status →
      getPackageMetadata registry cache pkg =
        (Except.error ("No se pudo consultar " ++ pkg ++ ": " ++ toString status),
         cache, [pkg])) ∧
    (∀ (registry : String → FetchOutcome) (cache : MetadataCache)
        (pkg : String) (status : Nat),
      cacheLookup cache pkg = none →
      registry pkg = FetchOutcome.httpFailure status →
      ((getPackageMetadata registry cache pkg).2.1 = cache ∧
       (getPackageMetadata registry
          ((getPackageMetadata registry cache pkg).2.1) pkg).2.2 = [pkg])) := by
  have hfail : ∀ (registry : String → FetchOutcome) (cache : MetadataCache)
      (pkg : String) (status : Nat),
      cacheLookup cache pkg = none →
      registry pkg = FetchOutcome.httpFailure status →
      getPackageMetadata registry cache pkg =
        (Except.error ("No se pudo consultar " ++ pkg ++ ": " ++ toString status),
         cache, [pkg]) := by
    intro registry cache pkg status hmiss hreg
    unfold getPackageMetadata fetchPackageFromRegistry
    rw [hmiss, hreg]
  refine ⟨?_, ?_, hfail, ?_⟩
  · intro registry cache pkg m hhit
    unfold getPackageMetadata
    rw [hhit]
  · intro registry cache pkg m hmiss hreg
    unfold getPackageMetadata fetchPackageFromRegistry
    rw [hmiss, hreg]
  · intro registry cache pkg status hmiss hreg
    rw [hfail registry cache pkg status hmiss hreg]
    refine ⟨rfl, ?_⟩
    rw [hfail registry cache pkg status hmiss hreg]

theorem getPackageMetadata_cache_behaviour_witness :
    let registry : String → FetchOutcome := fun _ => FetchOutcome.httpFailure 404
    let meta : NpmPackageMetadata := ⟨"react", [], [("latest", "19.2.0")]⟩
    getPackageMetadata registry [] "react" =
      (Except.error "No se pudo consultar react: 404", [], ["react"]) ∧
    getPackageMetadata registry [("react", meta)] "react" =
      (Except.ok meta, [("react", meta)], []) := by
  constructor
  · exact getPackageMetadata_cache_behaviour.2.2.1 _ [] "react" 404 (by decide) rfl
  · exact getPackageMetadata_cache_behaviour.1 _ _ "react"
      ⟨"react", [], [("latest", "19.2.0")]⟩ (by decide)

/-! ## `collectDuplicateIssues` (claim C3) -/

theorem CmpLaws.flip {α : Type} {f : α → α → Int} (hf : CmpLaws f) :
    CmpLaws (fun a b => f b a) := by
  constructor
  · intro a b
    exact hf.neg b a
  · intro a b c h
    have h1 : f a b = 0 := by have := hf.neg a b; omega
    have h2 := hf.subst a b c h1
    have := hf.neg a c; have := hf.neg b c; omega
  · intro a b c h1 h2
    exact hf.ltTrans c b a h2 h1

theorem semverCompareStr_laws : CmpLaws semverCompareStr :=
  compareSemVer_laws.onProj (fun s => (parseSemVer s).getD ⟨0, 0, 0, []⟩)

theorem semverRCompareStr_laws : CmpLaws semverRCompareStr :=
  semverCompareStr_laws.flip

theorem sortByCmp_perm (c : String → String → Int) (l : List String) :
    List.Perm (sortByCmp c l) l := by
  unfold sortByCmp
  exact List.perm_insertionSort _ l

theorem sortByCmp_sorted (c : String → String → Int) (hc : CmpLaws c)
    (l : List String) :
    List.Sorted (fun a b => c a b ≤ 0) (sortByCmp c l) := by
  unfold sortByCmp
  haveI : IsTotal String (fun a b => c a b ≤ 0) := ⟨fun a b => hc.total a b⟩
  haveI : IsTrans String (fun a b => c a b ≤ 0) :=
    ⟨fun a b d hab hbd => hc.leTrans a b d hab hbd⟩
  exact List.sorted_insertionSort _ l

/-- The head of a comparator sort is a member dominating every member. -/
theorem sortByCmp_head_max (c : String → String → Int) (hc : CmpLaws c)
    (l : List String) (best : String)
    (hhead : (sortByCmp c l).head? = some best) :
    best ∈ l ∧ ∀ v ∈ l, c best v ≤ 0 := by
  have hperm := sortByCmp_perm c l
  have hsorted := sortByCmp_sorted c hc l
  cases hs : sortByCmp c l with
  | nil => rw [hs] at hhead; cases hhead
  | cons x rest =>
    rw [hs] at hhead
    injection hhead with hx
    subst hx
    rw [hs] at hperm hsorted
    constructor
    · exact hperm.mem_iff.mp (List.mem_cons_self _ _)
    · intro v hv
      have hv2 : v ∈ x :: rest := hperm.mem_iff.mpr hv
      rcases List.mem_cons.mp hv2 with rfl | hv3
      · have := hc.refl0 v; omega
      · exact List.rel_of_sorted_cons hsorted v hv3

theorem collectDuplicateIssues_eq_filterMap (m : List (String × List String)) :
    collectDuplicateIssues m =
      (m.filter (fun e => e.2.length > 1)).map
        (fun e => (e.1, duplicateIssuesFor e.2)) := by
  have go : ∀ (mm : List (String × List String))
      (acc : List (String × List VersionIssue)),
      mm.foldl
        (fun acc entry =>
          if entry.2.length > 1 then acc ++ [(entry.1, duplicateIssuesFor entry.2)]
          else acc) acc =
      acc ++ (mm.filter (fun e => e.2.length > 1)).map
        (fun e => (e.1, duplicateIssuesFor e.2)) := by
    intro mm
    induction mm with
    | nil => intro acc; simp
    | cons e es ih =>
      intro acc
      simp only [List.foldl_cons]
      by_cases h : e.2.length > 1
      · rw [if_pos h, ih, List.filter_cons_of_pos (by simpa using h)]
        simp
      · rw [if_neg h, ih, List.filter_cons_of_neg (by simpa using h)]
  exact go m []

/-- **C3 (amended).**  The duplicate pass keeps exactly the entries whose
recorded version set has more than one element; each produces first a
`duplicate` issue whose message and `affectedVersions` list the versions
in first-seen order, and — only when at least one recorded version is
semver-valid — an `advice` issue recommending `^best` where `best` is a
valid recorded version dominating every valid recorded version.  When
every recorded version is invalid, only the `duplicate` issue is emitted
(no advice). -/
theorem collectDuplicateIssues_spec :
    (∀ m : List (String × List String),
      collectDuplicateIssues m =
        (m.filter (fun e => e.2.length > 1)).map
          (fun e => (e.1, duplicateIssuesFor e.2))) ∧
    (∀ vs : List String,
      (duplicateIssuesFor vs).head? =
        some { type := VersionIssueType.duplicate,
               message := "Se detectaron múltiples versiones instaladas: " ++
                 String.intercalate ", " vs,
               affectedVersions := some vs }) ∧
    (∀ vs : List String, (∀ v ∈ vs, semverValid v = false) →
      duplicateIssuesFor vs =
        [{ type := VersionIssueType.duplicate,
           message := "Se detectaron múltiples versiones instaladas: " ++
             String.intercalate ", " vs,
           affectedVersions := some vs }]) ∧
    (∀ (vs : List String) (w : String), w ∈ vs → semverValid w = true →
      ∃ best : String, best ∈ vs ∧ semverValid best = true ∧
        (∀ v ∈ vs, semverValid v = true → semverCompareStr v best ≤ 0) ∧
        duplicateIssuesFor vs =
          [{ type := VersionIssueType.duplicate,
             message := "Se detectaron múltiples versiones instaladas: " ++
               String.intercalate ", " vs,
             affectedVersions := some vs },
           { type := VersionIssueType.advice,
             message := "Actualiza los manifiestos a ^" ++ best ++
               " para unificar las " ++ toString vs.length ++
               " variantes detectadas.",
             affectedVersions := none }]) := by
  refine ⟨collectDuplicateIssues_eq_filterMap, ?_, ?_, ?_⟩
  · intro vs
    cases h : (sortByCmp semverRCompareStr (vs.filter semverValid)).head? <;>
      simp [duplicateIssuesFor, h]
  · intro vs hinv
    have hfilter : vs.filter semverValid = [] := by
      rw [List.filter_eq_nil_iff]
      intro a ha
      simp [hinv a ha]
    simp [duplicateIssuesFor, hfilter]
    rfl
  · intro vs w hw hvalid
    have hwf : w ∈ vs.filter semverValid := List.mem_filter.mpr ⟨hw, hvalid⟩
    have hne : vs.filter semverValid ≠ [] := by
      intro hnil
      rw [hnil] at hwf
      cases hwf
    have hsne : sortByCmp semverRCompareStr (vs.filter semverValid) ≠ [] := by
      intro hnil
      have := (sortByCmp_perm semverRCompareStr (vs.filter semverValid)).length_eq
      rw [hnil] at this
      exact hne (List.eq_nil_of_length_eq_zero this.symm)
    cases hs : sortByCmp semverRCompareStr (vs.filter semverValid) with
    | nil => exact absurd hs hsne
    | cons best rest =>
      have hhead : (sortByCmp semverRCompareStr (vs.filter semverValid)).head? =
          some best := by rw [hs]; rfl
      have hmax := sortByCmp_head_max semverRCompareStr semverRCompareStr_laws
        (vs.filter semverValid) best hhead
      refine ⟨best, (List.mem_filter.mp hmax.1).1, (List.mem_filter.mp hmax.1).2, ?_, ?_⟩
      · intro v hv hvv
        exact hmax.2 v (List.mem_filter.mpr ⟨hv, hvv⟩)
      · simp [duplicateIssuesFor, hhead]

theorem collectDuplicateIssues_spec_witness :
    duplicateIssuesFor ["foo", "bar"] =
      [{ type := VersionIssueType.duplicate,
         message := "Se detectaron múltiples versiones instaladas: " ++
           String.intercalate ", " ["foo", "bar"],
         affectedVersions := some ["foo", "bar"] }] ∧
    (∃ best : String, best ∈ ["1.0.0", "2.0.0"] ∧ semverValid best = true ∧
      (∀ v ∈ ["1.0.0", "2.0.0"], semverValid v = true →
        semverCompareStr v best ≤ 0) ∧
      duplicateIssuesFor ["1.0.0", "2.0.0"] =
        [{ type := VersionIssueType.duplicate,
           message := "Se detectaron múltiples versiones instaladas: " ++
             String.intercalate ", " ["1.0.0", "2.0.0"],
           affectedVersions := some ["1.0.0", "2.0.0"] },
         { type := VersionIssueType.advice,
           message := "Actualiza los manifiestos a ^" ++ best ++
             " para unificar las " ++ toString (["1.0.0", "2.0.0"] : List String).length ++
             " variantes detectadas.",
           affectedVersions := none }]) := by
  constructor
  · exact collectDuplicateIssues_spec.2.2.1 ["foo", "bar"] (by decide)
  · exact collectDuplicateIssues_spec.2.2.2 ["1.0.0", "2.0.0"] "2.0.0"
      (by decide) (by decide)

/-- **C3 counterexample.**  A package whose recorded versions are all
semver-invalid gets only the `duplicate` issue — no `advice` issue is
emitted, contrary to the claim's "including those whose recorded versions
are all semver-invalid". -/
theorem collectDuplicateIssues_counterexample :
    collectDuplicateIssues [("p", ["foo", "bar"])] =
      [("p", [{ type := VersionIssueType.duplicate,
                message := "Se detectaron múltiples versiones instaladas: foo, bar",
                affectedVersions := some ["foo", "bar"] }])] ∧
    (∀ e ∈ collectDuplicateIssues [("p", ["foo", "bar"])],
      ∀ i ∈ e.2, i.type ≠ VersionIssueType.advice) := by
  refine ⟨by decide, by decide⟩

/-! ## `findMaxSatisfying` (claim C7) -/

theorem CmpLaws.ltLeTrans {α : Type} {f : α → α → Int} (h : CmpLaws f)
    (a b c : α) (h1 : f a b < 0) (h2 : f b c ≤ 0) : f a c < 0 := by
  rcases lt_or_eq_of_le h2 with h2' | h2'
  · exact h.ltTrans a b c h1 h2'
  · have hcb : f c b = 0 := by have := h.neg b c; omega
    have := h.subst c b a hcb
    have := h.neg a c; have := h.neg a b; omega

/-- Does a version string satisfy a comparator list (a parsed range)?
Unparseable versions never satisfy (`Range.test`). -/
def versionSatisfies (comps : List Comparator) (v : String) : Bool :=
  match parseSemVer v with
  | some sv => satisfiesComps sv comps
  | none => false

/-- Does a version string satisfy a range string?  An unparseable range is
satisfied by nothing. -/
def satisfiesStr (v range : String) : Bool :=
  match rangeParse range with
  | some comps => versionSatisfies comps v
  | none => false

/-- The full invariant of the `maxSatisfying` scan: starting from an
accumulator whose entry (if any) is a parsed pair, the scan returns `none`
exactly when it started empty and nothing satisfies, and otherwise returns
a parsed pair that is either the starting entry or a satisfying member,
dominates every satisfying member, and dominates the starting entry. -/
theorem maxSatFold_spec (comps : List Comparator) (versions : List String) :
    ∀ acc : Option (String × SemVer),
      (∀ a : String × SemVer, acc = some a → parseSemVer a.1 = some a.2) →
      ((versions.foldl (maxSatStep comps) acc = none →
          acc = none ∧ ∀ v ∈ versions, versionSatisfies comps v = false) ∧
       (∀ m : String × SemVer, versions.foldl (maxSatStep comps) acc = some m →
          parseSemVer m.1 = some m.2 ∧
          (acc = some m ∨ (m.1 ∈ versions ∧ versionSatisfies comps m.1 = true)) ∧
          (∀ v ∈ versions, versionSatisfies comps v = true →
            ∀ sv : SemVer, parseSemVer v = some sv → compareSemVer sv m.2 ≤ 0) ∧
          (∀ a : String × SemVer, acc = some a → compareSemVer a.2 m.2 ≤ 0))) := by
  induction versions with
  | nil =>
    intro acc hacc
    constructor
    · intro h
      exact ⟨h, by intro v hv; cases hv⟩
    · intro m hm
      simp only [List.foldl_nil] at hm
      refine ⟨hacc m hm, Or.inl hm, ?_, ?_⟩
      · intro v hv; cases hv
      · intro a ha
        rw [ha] at hm
        injection hm with hm'
        subst hm'
        have := compareSemVer_laws.refl0 a.2
        omega
  | cons v vs ih =>
    intro acc hacc
    simp only [List.foldl_cons]
    cases hp : parseSemVer v with
    | none =>
      have hstep : maxSatStep comps acc v = acc := by
        unfold maxSatStep; rw [hp]
      have hsatv : versionSatisfies comps v = false := by
        unfold versionSatisfies; rw [hp]
      rw [hstep]
      obtain ⟨ihn, ihs⟩ := ih acc hacc
      constructor
      · intro h
        obtain ⟨h1, h2⟩ := ihn h
        refine ⟨h1, ?_⟩
        intro w hw
        rcases List.mem_cons.mp hw with rfl | hw2
        · exact hsatv
        · exact h2 w hw2
      · intro m hm
        obtain ⟨hparse, hmem, hdom, haccle⟩ := ihs m hm
        refine ⟨hparse, ?_, ?_, haccle⟩
        · rcases hmem with h | h
          · exact Or.inl h
          · exact Or.inr ⟨List.mem_cons_of_mem v h.1, h.2⟩
        · intro w hw hsw sw hpw
          rcases List.mem_cons.mp hw with rfl | hw2
          · rw [hsatv] at hsw; exact absurd hsw (by decide)
          · exact hdom w hw2 hsw sw hpw
    | some sv =>
      by_cases hsat : satisfiesComps sv comps
      · have hsatv : versionSatisfies comps v = true := by
          unfold versionSatisfies; rw [hp]; exact hsat
        cases acc with
        | none =>
          have hstep : maxSatStep comps none v = some (v, sv) := by
            simp [maxSatStep, hp, hsat]
          rw [hstep]
          have hacc2 : ∀ a : String × SemVer, some (v, sv) = some a →
              parseSemVer a.1 = some a.2 := by
            intro a ha
            injection ha with h2
            subst h2
            exact hp
          obtain ⟨ihn, ihs⟩ := ih (some (v, sv)) hacc2
          constructor
          · intro h
            obtain ⟨h1, _⟩ := ihn h
            exact Option.noConfusion h1
          · intro m hm
            obtain ⟨hparse, hmem, hdom, haccle⟩ := ihs m hm
            refine ⟨hparse, ?_, ?_, ?_⟩
            · rcases hmem with h | h
              · injection h with h2
                subst h2
                exact Or.inr ⟨List.mem_cons_self v vs, hsatv⟩
              · exact Or.inr ⟨List.mem_cons_of_mem v h.1, h.2⟩
            · intro w hw hsw sw hpw
              rcases List.mem_cons.mp hw with rfl | hw2
              · rw [hp] at hpw
                injection hpw with h3
                subst h3
                exact haccle (w, sv) rfl
              · exact hdom w hw2 hsw sw hpw
            · intro a ha
              exact Option.noConfusion ha
        | some b =>
          by_cases hcmp : compareSemVer b.2 sv < 0
          · have hstep : maxSatStep comps (some b) v = some (v, sv) := by
              simp [maxSatStep, hp, hsat, hcmp]
            rw [hstep]
            have hacc2 : ∀ a : String × SemVer, some (v, sv) = some a →
                parseSemVer a.1 = some a.2 := by
              intro a ha
              injection ha with h2
              subst h2
              exact hp
            obtain ⟨ihn, ihs⟩ := ih (some (v, sv)) hacc2
            constructor
            · intro h
              obtain ⟨h1, _⟩ := ihn h
              exact Option.noConfusion h1
            · intro m hm
              obtain ⟨hparse, hmem, hdom, haccle⟩ := ihs m hm
              have hvle : compareSemVer sv m.2 ≤ 0 := haccle (v, sv) rfl
              refine ⟨hparse, ?_, ?_, ?_⟩
              · rcases hmem with h | h
                · injection h with h2
                  subst h2
                  exact Or.inr ⟨List.mem_cons_self v vs, hsatv⟩
                · exact Or.inr ⟨List.mem_cons_of_mem v h.1, h.2⟩
              · intro w hw hsw sw hpw
                rcases List.mem_cons.mp hw with rfl | hw2
                · rw [hp] at hpw
                  injection hpw with h3
                  subst h3
                  exact hvle
                · exact hdom w hw2 hsw sw hpw
              · intro a ha
                injection ha with h2
                subst h2
                exact le_of_lt
                  (compareSemVer_laws.ltLeTrans b.2 sv m.2 hcmp hvle)
          · have hstep : maxSatStep comps (some b) v = some b := by
              simp [maxSatStep, hp, hsat, hcmp]
            rw [hstep]
            obtain ⟨ihn, ihs⟩ := ih (some b) hacc
            constructor
            · intro h
              obtain ⟨h1, _⟩ := ihn h
              exact Option.noConfusion h1
            · intro m hm
              obtain ⟨hparse, hmem, hdom, haccle⟩ := ihs m hm
              have hble : compareSemVer b.2 m.2 ≤ 0 := haccle b rfl
              refine ⟨hparse, ?_, ?_, ?_⟩
              · rcases hmem with h | h
                · exact Or.inl h
                · exact Or.inr ⟨List.mem_cons_of_mem v h.1, h.2⟩
              · intro w hw hsw sw hpw
                rcases List.mem_cons.mp hw with rfl | hw2
                · rw [hp] at hpw
                  injection hpw with h3
                  subst h3
                  have h4 : compareSemVer sv b.2 ≤ 0 := by
                    have := compareSemVer_laws.neg b.2 sv
                    omega
                  exact compareSemVer_laws.leTrans sv b.2 m.2 h4 hble
                · exact hdom w hw2 hsw sw hpw
              · intro a ha
                injection ha with h2
                subst h2
                exact hble
      · have hstep : maxSatStep comps acc v = acc := by
          cases acc <;> simp [maxSatStep, hp, hsat]
        have hsatv : versionSatisfies comps v = false := by
          unfold versionSatisfies
          rw [hp]
          exact Bool.eq_false_iff.mpr hsat
        rw [hstep]
        obtain ⟨ihn, ihs⟩ := ih acc hacc
        constructor
        · intro h
          obtain ⟨h1, h2⟩ := ihn h
          refine ⟨h1, ?_⟩
          intro w hw
          rcases List.mem_cons.mp hw with rfl | hw2
          · exact hsatv
          · exact h2 w hw2
        · intro m hm
          obtain ⟨hparse, hmem, hdom, haccle⟩ := ihs m hm
          refine ⟨hparse, ?_, ?_, haccle⟩
          · rcases hmem with h | h
            · exact Or.inl h
            · exact Or.inr ⟨List.mem_cons_of_mem v h.1, h.2⟩
          · intro w hw hsw sw hpw
            rcases List.mem_cons.mp hw with rfl | hw2
            · rw [hsatv] at hsw; exact absurd hsw (by decide)
            · exact hdom w hw2 hsw sw hpw

/-- **C7 (amended).**  `findMaxSatisfying` returns `null` when the range
is empty or the version list is empty; otherwise it returns the greatest
version of the list satisfying the normalized range and `null` when none
satisfies.  Pre-release versions are not excluded outright: a returned
pre-release is possible exactly when the normalized range carries a
comparator with a pre-release on the same `major.minor.patch` triple (the
npm semver rule under `includePrerelease: false`). -/
theorem findMaxSatisfying_spec :
    (∀ (r : String) (V : List String), (r = "" ∨ V = []) →
      findMaxSatisfying r V = none) ∧
    (∀ (r : String) (V : List String) (m : String),
      findMaxSatisfying r V = some m →
      m ∈ V ∧ satisfiesStr m (normalizeRange r) = true ∧
      ∀ v ∈ V, satisfiesStr v (normalizeRange r) = true →
        semverCompareStr v m ≤ 0) ∧
    (∀ (r : String) (V : List String),
      (∀ v ∈ V, satisfiesStr v (normalizeRange r) = false) →
      findMaxSatisfying r V = none) ∧
    (∀ (r : String) (V : List String) (m : String) (sm : SemVer),
      findMaxSatisfying r V = some m → parseSemVer m = some sm →
      sm.prerelease ≠ [] →
      ∃ comps : List Comparator, rangeParse (normalizeRange r) = some comps ∧
        comps.any (fun c => !c.ver.prerelease.isEmpty && sameTriple c.ver sm) =
          true) := by
  have hguard : ∀ (r : String) (V : List String), ¬(r = "" ∨ V.isEmpty) →
      findMaxSatisfying r V = maxSatisfying V (normalizeRange r) := by
    intro r V h
    unfold findMaxSatisfying
    rw [if_neg (by simpa using h)]
  refine ⟨?_, ?_, ?_, ?_⟩
  · intro r V h
    unfold findMaxSatisfying
    rcases h with h | h
    · rw [if_pos (Or.inl h)]
    · rw [if_pos (Or.inr (by rw [h]; rfl))]
  · intro r V m hm
    have hne : ¬(r = "" ∨ V.isEmpty) := by
      intro hc
      rw [(by unfold findMaxSatisfying; rw [if_pos (by simpa using hc)] :
        findMaxSatisfying r V = none)] at hm
      cases hm
    rw [hguard r V hne] at hm
    unfold maxSatisfying at hm
    cases hr : rangeParse (normalizeRange r) with
    | none =>
      simp only [hr] at hm
      exact Option.noConfusion hm
    | some comps =>
      simp only [hr] at hm
      cases hf : V.foldl (maxSatStep comps) none with
      | none =>
        rw [hf] at hm
        exact Option.noConfusion hm
      | some p =>
        rw [hf] at hm
        have hm' : p.1 = m := by simpa using hm
        obtain ⟨_, ihs⟩ := maxSatFold_spec comps V none (by intro a ha; cases ha)
        obtain ⟨hparse, hmem, hdom, _⟩ := ihs p hf
        rcases hmem with h | h
        · cases h
        · subst hm'
          refine ⟨h.1, ?_, ?_⟩
          · unfold satisfiesStr
            rw [hr]
            exact h.2
          · intro v hv hsv
            unfold satisfiesStr at hsv
            rw [hr] at hsv
            have hpv : (parseSemVer v).isSome := by
              unfold versionSatisfies at hsv
              cases hpv : parseSemVer v with
              | none => rw [hpv] at hsv; cases hsv
              | some sv => rfl
            rcases Option.isSome_iff_exists.mp hpv with ⟨sv, hsv2⟩
            have hle := hdom v hv hsv sv hsv2
            unfold semverCompareStr
            rw [hsv2, hparse]
            simpa using hle
  · intro r V hnone
    by_cases hg : r = "" ∨ V.isEmpty
    · unfold findMaxSatisfying
      rw [if_pos (by simpa using hg)]
    · rw [hguard r V hg]
      unfold maxSatisfying
      cases hr : rangeParse (normalizeRange r) with
      | none => rfl
      | some comps =>
        cases hf : V.foldl (maxSatStep comps) none with
        | none => simp [hf]
        | some p =>
          obtain ⟨_, ihs⟩ := maxSatFold_spec comps V none (by intro a ha; cases ha)
          obtain ⟨_, hmem, _, _⟩ := ihs p hf
          rcases hmem with h | h
          · cases h
          · have hcontra := hnone p.1 h.1
            unfold satisfiesStr at hcontra
            simp only [hr] at hcontra
            rw [hcontra] at h
            exact absurd h.2 (by decide)
  · intro r V m sm hm hparse hpre
    have hne : ¬(r = "" ∨ V.isEmpty) := by
      intro hc
      rw [(by unfold findMaxSatisfying; rw [if_pos (by simpa using hc)] :
        findMaxSatisfying r V = none)] at hm
      cases hm
    rw [hguard r V hne] at hm
    unfold maxSatisfying at hm
    cases hr : rangeParse (normalizeRange r) with
    | none =>
      simp only [hr] at hm
      exact Option.noConfusion hm
    | some comps =>
      simp only [hr] at hm
      cases hf : V.foldl (maxSatStep comps) none with
      | none =>
        rw [hf] at hm
        exact Option.noConfusion hm
      | some p =>
        rw [hf] at hm
        have hm' : p.1 = m := by simpa using hm
        obtain ⟨_, ihs⟩ := maxSatFold_spec comps V none (by intro a ha; cases ha)
        obtain ⟨hparse2, hmem, _, _⟩ := ihs p hf
        rcases hmem with h | h
        · cases h
        · refine ⟨comps, rfl, ?_⟩
          have hsat := h.2
          unfold versionSatisfies at hsat
          subst hm'
          simp only [hparse] at hsat
          have h2 : sm = p.2 := by
            rw [hparse] at hparse2
            injection hparse2
          subst h2
          unfold satisfiesComps at hsat
          have hpre2 : p.2.prerelease.isEmpty = false := by
            cases hp2 : p.2.prerelease with
            | nil => exact absurd hp2 hpre
            | cons a as => rfl
          rw [hpre2] at hsat
          simp only [Bool.and_eq_true, Bool.or_eq_true] at hsat
          rcases hsat.2 with h3 | h3
          · cases h3
          · exact h3

theorem findMaxSatisfying_spec_witness :
    findMaxSatisfying "" ["1.0.0"] = none ∧
    ("1.2.5" ∈ ["1.1.0", "1.2.5", "2.0.0"] ∧
      satisfiesStr "1.2.5" (normalizeRange "^1.2.0") = true ∧
      ∀ v ∈ ["1.1.0", "1.2.5", "2.0.0"],
        satisfiesStr v (normalizeRange "^1.2.0") = true →
        semverCompareStr v "1.2.5" ≤ 0) := by
  constructor
  · exact findMaxSatisfying_spec.1 "" ["1.0.0"] (Or.inl rfl)
  · exact findMaxSatisfying_spec.2.1 "^1.2.0" ["1.1.0", "1.2.5", "2.0.0"]
      "1.2.5" (by decide)

/-- **C7 counterexample.**  Pre-release versions are not excluded from
consideration: for the range `^1.2.3-alpha` the scan returns the
pre-release `1.2.3-beta`. -/
theorem findMaxSatisfying_counterexample :
    findMaxSatisfying "^1.2.3-alpha" ["1.2.3-beta"] = some "1.2.3-beta" ∧
    (parseSemVer "1.2.3-beta").map SemVer.prerelease = some ["beta"] := by
  refine ⟨by decide, by decide⟩

/-! ## `createAnalysisReport` (claim C8) -/

theorem cmpEntry_eval (a b : IssueReportEntry) :
    cmpEntry a b =
      (if issueRank a.type - issueRank b.type = 0 then
        (if cmpString a.packageName b.packageName = 0 then
          cmpString a.message b.message
        else cmpString a.packageName b.packageName)
      else issueRank a.type - issueRank b.type) := rfl

/-- **C8.**  `topIssues` is the first 12 entries of the stable sort of all
flattened issue entries; the sorted list is ordered by severity rank, then
package name, then message, and is a permutation of the full entry list;
`summary.totalIssues` is the untruncated count. -/
theorem createAnalysisReport_topIssues (G : DependencyGraphResult) :
    (createAnalysisReport G).summary.totalIssues =
      (reportEntriesOfNodes "" G.tree).length ∧
    (createAnalysisReport G).topIssues =
      (sortEntries (reportEntriesOfNodes "" G.tree)).take 12 ∧
    List.Sorted entryLE (sortEntries (reportEntriesOfNodes "" G.tree)) ∧
    List.Perm (sortEntries (reportEntriesOfNodes "" G.tree))
      (reportEntriesOfNodes "" G.tree) ∧
    (createAnalysisReport G).topIssues.length =
      min 12 (reportEntriesOfNodes "" G.tree).length ∧
    (∀ a b : IssueReportEntry, entryLE a b ↔
      (issueRank a.type < issueRank b.type ∨
        (issueRank a.type = issueRank b.type ∧
          (cmpString a.packageName b.packageName < 0 ∨
            (a.packageName = b.packageName ∧
              cmpString a.message b.message ≤ 0))))) := by
  refine ⟨rfl, rfl, ?_, ?_, ?_, ?_⟩
  · exact List.sorted_insertionSort entryLE _
  · exact List.perm_insertionSort entryLE _
  · have h : (createAnalysisReport G).topIssues =
        (sortEntries (reportEntriesOfNodes "" G.tree)).take 12 := rfl
    rw [h, List.length_take]
    unfold sortEntries
    rw [(List.perm_insertionSort entryLE (reportEntriesOfNodes "" G.tree)).length_eq]
  · intro a b
    unfold entryLE
    rw [cmpEntry_eval]
    by_cases h1 : issueRank a.type - issueRank b.type = 0
    · rw [if_pos h1]
      by_cases h2 : cmpString a.packageName b.packageName = 0
      · rw [if_pos h2]
        have hnames := cmpString_eq_zero h2
        constructor
        · intro h3
          exact Or.inr ⟨by omega, Or.inr ⟨hnames, h3⟩⟩
        · intro h3
          rcases h3 with h3 | ⟨h4, h5 | ⟨h6, h7⟩⟩
          · omega
          · omega
          · exact h7
      · rw [if_neg h2]
        constructor
        · intro h3
          exact Or.inr ⟨by omega, Or.inl (by omega)⟩
        · intro h3
          rcases h3 with h3 | ⟨h4, h5 | ⟨h6, h7⟩⟩
          · omega
          · omega
          · exfalso
            apply h2
            rw [h6]
            exact cmpString_laws.refl0 _
    · rw [if_neg h1]
      constructor
      · intro h3
        exact Or.inl (by omega)
      · intro h3
        rcases h3 with h3 | ⟨h4, _⟩
        · omega
        · omega

theorem diffIssueSummary_self_witness :
    diffIssueSummary (some ⟨[], [], []⟩) (some ⟨[], [], []⟩) =
      some { introduced := 0, resolved := 0, baselineTotal := 0, targetTotal := 0 } := by
  exact (diffIssueSummary_self ⟨[], [], []⟩).1.trans (by decide)

theorem mergeIssues_appends_new_and_idempotent_witness :
    mergeIssues
        [{ type := VersionIssueType.error, message := "a", affectedVersions := none }]
        [{ type := VersionIssueType.error, message := "a", affectedVersions := none },
         { type := VersionIssueType.advice, message := "b", affectedVersions := none }] =
      [{ type := VersionIssueType.error, message := "a", affectedVersions := none },
       { type := VersionIssueType.advice, message := "b", affectedVersions := none }] ∧
    mergeIssues
        (mergeIssues
          [{ type := VersionIssueType.error, message := "a", affectedVersions := none }]
          [{ type := VersionIssueType.advice, message := "b", affectedVersions := none }])
        [{ type := VersionIssueType.advice, message := "b", affectedVersions := none }] =
      mergeIssues
        [{ type := VersionIssueType.error, message := "a", affectedVersions := none }]
        [{ type := VersionIssueType.advice, message := "b", affectedVersions := none }] := by
  constructor
  · exact (mergeIssues_appends_new_and_idempotent.1
      [{ type := VersionIssueType.error, message := "a", affectedVersions := none }]
      [{ type := VersionIssueType.error, message := "a", affectedVersions := none },
       { type := VersionIssueType.advice, message := "b", affectedVersions := none }]).trans
      (by decide)
  · exact mergeIssues_appends_new_and_idempotent.2
      [{ type := VersionIssueType.error, message := "a", affectedVersions := none }]
      [{ type := VersionIssueType.advice, message := "b", affectedVersions := none }]

theorem createAnalysisReport_topIssues_witness :
    (createAnalysisReport
        ⟨[DependencyNode.mk "a" "a@1.0.0" "^1.0.0" (some "1.0.0") (some "1.0.0") "d"
            [{ type := VersionIssueType.advice, message := "m", affectedVersions := none }]
            [] []],
         [], []⟩).summary.totalIssues = 1 ∧
    (createAnalysisReport
        ⟨[DependencyNode.mk "a" "a@1.0.0" "^1.0.0" (some "1.0.0") (some "1.0.0") "d"
            [{ type := VersionIssueType.advice, message := "m", affectedVersions := none }]
            [] []],
         [], []⟩).topIssues =
      [{ packageName := "a", nodeId := "a@1.0.0", type := VersionIssueType.advice,
         message := "m", path := "a" }] := by
  constructor
  · exact (createAnalysisReport_topIssues
      ⟨[DependencyNode.mk "a" "a@1.0.0" "^1.0.0" (some "1.0.0") (some "1.0.0") "d"
          [{ type := VersionIssueType.advice, message := "m", affectedVersions := none }]
          [] []],
       [], []⟩).1.trans (by decide)
  · exact (createAnalysisReport_topIssues
      ⟨[DependencyNode.mk "a" "a@1.0.0" "^1.0.0" (some "1.0.0") (some "1.0.0") "d"
          [{ type := VersionIssueType.advice, message := "m", affectedVersions := none }]
          [] []],
       [], []⟩).2.1.trans (by decide)

end PkgLens
